import Mathlib

/-!
Verification of the DFMEA agent's data-validation and parsing core.

This file gives a shallow embedding, in Lean, of the schema layer
(`src/fmea_schema.py`) and the response parser (`src/agent.py`) of the
DFMEA agent, and proves the specification's claims about them.

Modelling conventions:
* Python integers are `Int` (or `Nat` where the value is a count or index).
* Python floats are modelled as exact rationals `ℚ`; `round(x, 2)` is
  modelled as round-half-to-even at two decimal places (Python's tie rule).
* Fallible Python code (exceptions) is modelled with `Except`/`Option`.
* Pydantic raises a single `ValidationError` carrying all field errors;
  the model returns the first failing check (in field-declaration order).
  Success/failure coincide with the Python code; only the identity of the
  reported error on multi-error inputs differs.
-/

/-! ### Risk levels and scoring primitives (`fmea_schema.py`) -/

/-- The `RiskLevel` literal type: one of low / medium / high / critical. -/
inductive RiskLevel where
  | low
  | medium
  | high
  | critical
deriving DecidableEq, Repr

/-- Ordinal rank of a risk tier (for monotonicity statements). -/
def tierRank : RiskLevel → Nat
  | .low => 0
  | .medium => 1
  | .high => 2
  | .critical => 3

/-- `compute_rpn`: RPN = S × O × D. Total over integers, as in the source. -/
def compute_rpn (severity occurrence detection : Int) : Int :=
  severity * occurrence * detection

/-- `classify_risk`: threshold lookup with thresholds 400 / 200 / 100,
checked from the top as in the source's if/elif chain. -/
def classify_risk (rpn : Int) : RiskLevel :=
  if rpn ≥ 400 then .critical
  else if rpn ≥ 200 then .high
  else if rpn ≥ 100 then .medium
  else .low

/-! ### The entry model -/

/-- A single row of the FMEA matrix (`FMEAEntry`), as plain data.  Whether a
given record passes pydantic validation is decided by `validateEntry`. -/
structure FMEAEntry where
  id : String
  component : String
  function : String
  failure_mode : String
  failure_effect : String
  failure_cause : String
  severity : Int
  occurrence : Int
  detection : Int
  rpn : Int
  recommended_action : String
  risk_level : RiskLevel
deriving DecidableEq, Repr

/-- Validation errors for `FMEAEntry` construction.  Each constructor carries
the data the corresponding Python exception message interpolates, so the
"expected vs. actual" content of the report is part of the error value. -/
inductive EntryError where
  /-- A `Field(ge=…, le=…)` bound was violated: field name and offending value. -/
  | fieldRange (field : String) (value : Int)
  /-- `rpn` does not equal S×O×D: actual rpn, the three ratings, the expected product. -/
  | rpnMismatch (rpn severity occurrence detection expected : Int)
  /-- `risk_level` does not match `classify_risk(rpn)`: actual, expected, rpn. -/
  | riskMismatch (actual expected : RiskLevel) (rpn : Int)
deriving DecidableEq, Repr

/-- Pydantic validation of a fully-supplied `FMEAEntry` (the direct
construction path `FMEAEntry(**fields)`): the `ge`/`le` field constraints on
the three ratings and `rpn`, then the `validate_rpn_consistency` model
validator (product check, then classification check).  Returns the record
unchanged on success — nothing is corrected silently. -/
def validateEntry (e : FMEAEntry) : Except EntryError FMEAEntry :=
  if ¬(1 ≤ e.severity ∧ e.severity ≤ 10) then
    .error (.fieldRange "severity" e.severity)
  else if ¬(1 ≤ e.occurrence ∧ e.occurrence ≤ 10) then
    .error (.fieldRange "occurrence" e.occurrence)
  else if ¬(1 ≤ e.detection ∧ e.detection ≤ 10) then
    .error (.fieldRange "detection" e.detection)
  else if ¬(1 ≤ e.rpn ∧ e.rpn ≤ 1000) then
    .error (.fieldRange "rpn" e.rpn)
  else if e.rpn ≠ compute_rpn e.severity e.occurrence e.detection then
    .error (.rpnMismatch e.rpn e.severity e.occurrence e.detection
      (compute_rpn e.severity e.occurrence e.detection))
  else if e.risk_level ≠ classify_risk e.rpn then
    .error (.riskMismatch e.risk_level (classify_risk e.rpn) e.rpn)
  else
    .ok e

/-- The trusted factory `FMEAEntry.create`: computes `rpn` and `risk_level`
from the three ratings and then runs the same pydantic validation that any
construction runs. -/
def FMEAEntry.create (id component function_ failure_mode failure_effect
    failure_cause : String) (severity occurrence detection : Int)
    (recommended_action : String) : Except EntryError FMEAEntry :=
  validateEntry
    ⟨id, component, function_, failure_mode, failure_effect, failure_cause,
      severity, occurrence, detection,
      compute_rpn severity occurrence detection,
      recommended_action, classify_risk (compute_rpn severity occurrence detection)⟩

/-! ### Summary aggregation -/

/-- Round-half-to-even to the nearest integer (Python's `round` tie rule on
exact values). -/
def roundHalfEven (q : ℚ) : Int :=
  let f : Int := ⌊q⌋
  let frac : ℚ := q - f
  if frac < 1/2 then f
  else if frac > 1/2 then f + 1
  else if f % 2 = 0 then f else f + 1

/-- `round(x, 2)` on an exact rational: round-half-to-even at two decimals. -/
def pyRound2 (q : ℚ) : ℚ :=
  (roundHalfEven (q * 100) : ℚ) / 100

/-- Aggregate statistics over entries (`FMEASummary`). -/
structure FMEASummary where
  total_entries : Nat
  critical_count : Nat
  high_count : Nat
  medium_count : Nat
  low_count : Nat
  max_rpn : Int
  avg_rpn : ℚ
deriving DecidableEq, Repr

/-- Python's `max` over a nonempty list of ints (`0` only for the never-used
empty case). -/
def listMax : List Int → Int
  | [] => 0
  | x :: xs => xs.foldl max x

/-- `FMEASummary.from_entries`: all-zero summary for the empty list, otherwise
per-tier counts, maximum rpn, and the mean rpn rounded to two decimals. -/
def FMEASummary.from_entries (entries : List FMEAEntry) : FMEASummary :=
  match entries with
  | [] => ⟨0, 0, 0, 0, 0, 0, 0⟩
  | _ :: _ =>
    let rpns := entries.map (·.rpn)
    ⟨entries.length,
      (entries.filter (fun e => e.risk_level = .critical)).length,
      (entries.filter (fun e => e.risk_level = .high)).length,
      (entries.filter (fun e => e.risk_level = .medium)).length,
      (entries.filter (fun e => e.risk_level = .low)).length,
      listMax rpns,
      pyRound2 ((rpns.sum : ℚ) / (rpns.length : ℚ))⟩

/-! ### JSON values

A decoded JSON value, as produced by Python's `json.loads`.  Numbers are
modelled as exact rationals (Python separates `int` and `float`, but every
use in the code under verification — `int(x)` coercion and equality of
round-tripped values — is captured by the exact rational).  Objects keep
their members in source order; lookups take the last binding with the key,
which is the value a Python `dict` built from those pairs would hold.
(The non-finite literals `NaN`/`Infinity` accepted by `json.loads` are
outside the model.) -/
inductive Json where
  | null
  | bool (b : Bool)
  | num (q : ℚ)
  | str (s : String)
  | arr (elements : List Json)
  | obj (members : List (String × Json))

/-- `dict` lookup on decoded members: the last binding for the key wins. -/
def jsonGet (kvs : List (String × Json)) (key : String) : Option Json :=
  match kvs with
  | [] => none
  | (k, v) :: rest =>
    match jsonGet rest key with
    | some w => some w
    | none => if k = key then some v else none

/-! ### Python `int(x)` coercion -/

/-- Integer part of a rational, truncating toward zero — `int(float)`. -/
def truncToward0 (q : ℚ) : Int :=
  if 0 ≤ q then ⌊q⌋ else -⌊-q⌋

/-- `int(string)`: optional surrounding whitespace, an optional single sign,
then a nonempty run of decimal digits.  (Python's underscore separators and
non-ASCII digits are outside the model.) -/
def pyIntOfChars (cs : List Char) : Option Int :=
  let core := (cs.dropWhile (fun c => c = ' ' ∨ c = '\t' ∨ c = '\n' ∨ c = '\r')).reverse
    |>.dropWhile (fun c => c = ' ' ∨ c = '\t' ∨ c = '\n' ∨ c = '\r') |>.reverse
  let (sign, digits) : Int × List Char :=
    match core with
    | '-' :: rest => (-1, rest)
    | '+' :: rest => (1, rest)
    | _ => (1, core)
  if digits ≠ [] ∧ digits.all (fun c => c.isDigit) then
    some (sign * (digits.foldl (fun acc c => acc * 10 + (c.toNat - '0'.toNat)) 0 : Nat))
  else
    none

/-- Errors raised (and caught) inside the per-element loop of
`_parse_and_validate_entries`. -/
inductive ElementError where
  /-- `raw_entry[key]` on a non-dict element (`TypeError`). -/
  | notAnObject
  /-- `raw_entry[key]` with the key absent (`KeyError`). -/
  | missingKey (key : String)
  /-- `int(x)` failed (`ValueError`/`TypeError`). -/
  | intCoercion (key : String)
  /-- A text field was not a string (pydantic type error, a `ValueError`). -/
  | notAString (key : String)
  /-- The entry failed pydantic validation inside `FMEAEntry.create`. -/
  | invalidEntry (err : EntryError)
deriving DecidableEq, Repr

/-- `int(x)` applied to a decoded JSON value: ints/floats truncate toward
zero, booleans become 0/1, strings are parsed, everything else raises. -/
def pyInt (j : Json) : Except ElementError Int :=
  match j with
  | .num q => .ok (truncToward0 q)
  | .bool b => .ok (if b then 1 else 0)
  | .str s => match pyIntOfChars s.toList with
    | some n => .ok n
    | none => .error (.intCoercion "")
  | _ => .error (.intCoercion "")

/-- Zero-pad a natural number to (at least) three digits — `f"{n:03d}"`. -/
def zeroPad3 (n : Nat) : String :=
  let s := toString n
  if s.length < 3 then String.mk (List.replicate (3 - s.length) '0') ++ s else s

/-- The id the parser assigns to the element at 0-based index `i`:
`f"DFMEA-{i + 1:03d}"`. -/
def dfmeaId (i : Nat) : String :=
  "DFMEA-" ++ zeroPad3 (i + 1)

/-- Fetch a required key from a decoded object (`raw_entry[key]`). -/
def requireKey (kvs : List (String × Json)) (key : String) :
    Except ElementError Json :=
  match jsonGet kvs key with
  | some v => .ok v
  | none => .error (.missingKey key)

/-- A decoded value used as a text field must be a string (pydantic `str`). -/
def requireStr (key : String) (j : Json) : Except ElementError String :=
  match j with
  | .str s => .ok s
  | _ => .error (.notAString key)

/-- One iteration of the parser's loop: build the entry at index `i` from the
decoded element `j`, via the trusted factory.  Keys are read in the order the
Python call evaluates its arguments; `int()` is applied to the three ratings;
then `FMEAEntry.create` runs pydantic validation.  Any raised
`KeyError`/`ValueError`/`TypeError` becomes an `ElementError`. -/
def tryCreateEntry (i : Nat) (j : Json) : Except ElementError FMEAEntry :=
  match j with
  | .obj kvs => do
    let vComponent ← requireKey kvs "component"
    let vFunction ← requireKey kvs "function"
    let vMode ← requireKey kvs "failure_mode"
    let vEffect ← requireKey kvs "failure_effect"
    let vCause ← requireKey kvs "failure_cause"
    let sev ← (← requireKey kvs "severity") |> pyInt
    let occ ← (← requireKey kvs "occurrence") |> pyInt
    let det ← (← requireKey kvs "detection") |> pyInt
    let vAction ← requireKey kvs "recommended_action"
    let component ← requireStr "component" vComponent
    let function_ ← requireStr "function" vFunction
    let mode ← requireStr "failure_mode" vMode
    let effect ← requireStr "failure_effect" vEffect
    let cause ← requireStr "failure_cause" vCause
    let action ← requireStr "recommended_action" vAction
    match FMEAEntry.create (dfmeaId i) component function_ mode effect cause
        sev occ det action with
    | .ok e => .ok e
    | .error err => .error (.invalidEntry err)
  | _ => .error .notAnObject

/-- The element loop: successes in order, and one diagnostic per failing
element, tagged with its 1-based position (`f"Entry {i + 1}: {e}"`).
`i` is the 0-based index of the first element of `raws`. -/
def collectFrom (i : Nat) (raws : List Json) :
    List FMEAEntry × List (Nat × ElementError) :=
  match raws with
  | [] => ([], [])
  | j :: rest =>
    let (es, errs) := collectFrom (i + 1) rest
    match tryCreateEntry i j with
    | .ok e => (e :: es, errs)
    | .error err => (es, (i + 1, err) :: errs)

/-- The element loop over a whole decoded array. -/
def collectEntries (raws : List Json) :
    List FMEAEntry × List (Nat × ElementError) :=
  collectFrom 0 raws

/-- Failures of `_parse_and_validate_entries` that abort the whole call. -/
inductive AgentError where
  /-- No `[` or no `]` in the cleaned response. -/
  | noJsonArray
  /-- `json.loads` failed on the candidate substring. -/
  | jsonDecode
  /-- The decoded value was not a list. -/
  | notAList
  /-- Every element failed; carries the number of validation errors. -/
  | noValidEntries (errorTotal : Nat)
deriving DecidableEq, Repr

/-- The tail of `_parse_and_validate_entries`, from the decoded array on:
run the element loop; if no entry survived, fail with the error count,
otherwise return the surviving entries. -/
def entriesFromDecoded (raws : List Json) :
    Except AgentError (List FMEAEntry) :=
  let (entries, errors) := collectEntries raws
  if entries.isEmpty then .error (.noValidEntries errors.length)
  else .ok entries

/-! ### Helper lemmas about validation -/

/-- Validation succeeds (returning the record unchanged) exactly when all the
numeric checks pass; the text fields play no role. -/
theorem validateEntry_ok_of (e : FMEAEntry)
    (h1 : 1 ≤ e.severity) (h2 : e.severity ≤ 10)
    (h3 : 1 ≤ e.occurrence) (h4 : e.occurrence ≤ 10)
    (h5 : 1 ≤ e.detection) (h6 : e.detection ≤ 10)
    (h7 : 1 ≤ e.rpn) (h8 : e.rpn ≤ 1000)
    (h9 : e.rpn = compute_rpn e.severity e.occurrence e.detection)
    (h10 : e.risk_level = classify_risk e.rpn) :
    validateEntry e = .ok e := by
  unfold validateEntry
  rw [if_neg (not_not_intro ⟨h1, h2⟩), if_neg (not_not_intro ⟨h3, h4⟩),
    if_neg (not_not_intro ⟨h5, h6⟩), if_neg (not_not_intro ⟨h7, h8⟩),
    if_neg (not_not_intro h9), if_neg (not_not_intro h10)]

/-- Validation never alters the record it accepts. -/
theorem validateEntry_ok_eq {e e' : FMEAEntry} (h : validateEntry e = .ok e') :
    e' = e := by
  unfold validateEntry at h
  split_ifs at h <;> injection h with h <;> exact h.symm

/-- Ratings in range force the product into `[1, 1000]`. -/
theorem rpn_bounds {s o d : Int} (h1 : 1 ≤ s) (h2 : s ≤ 10)
    (h3 : 1 ≤ o) (h4 : o ≤ 10) (h5 : 1 ≤ d) (h6 : d ≤ 10) :
    1 ≤ s * o * d ∧ s * o * d ≤ 1000 := by
  have hso1 : 1 ≤ s * o := by
    nlinarith [mul_nonneg (by linarith : (0:ℤ) ≤ s - 1) (by linarith : (0:ℤ) ≤ o - 1)]
  have hso2 : s * o ≤ 100 := by
    nlinarith [mul_nonneg (by linarith : (0:ℤ) ≤ 10 - s) (by linarith : (0:ℤ) ≤ o)]
  constructor
  · nlinarith [mul_nonneg (by linarith : (0:ℤ) ≤ s * o - 1) (by linarith : (0:ℤ) ≤ d - 1)]
  · nlinarith [mul_nonneg (by linarith : (0:ℤ) ≤ 100 - s * o) (by linarith : (0:ℤ) ≤ d)]

/-- Claim C1: for every id, six text fields, and ratings severity, occurrence,
detection each in [1,10], the trusted factory `FMEAEntry.create` succeeds and
produces an entry whose rpn equals severity × occurrence × detection and whose
risk_level equals `classify_risk(rpn)`; the factory can never produce an entry
violating this invariant. -/
theorem create_factory_consistent
    (id component function_ failure_mode failure_effect failure_cause
      recommended_action : String) (s o d : Int)
    (hs1 : 1 ≤ s) (hs2 : s ≤ 10) (ho1 : 1 ≤ o) (ho2 : o ≤ 10)
    (hd1 : 1 ≤ d) (hd2 : d ≤ 10) :
    ∃ e : FMEAEntry,
      FMEAEntry.create id component function_ failure_mode failure_effect
        failure_cause s o d recommended_action = .ok e ∧
      e.rpn = s * o * d ∧
      e.risk_level = classify_risk e.rpn ∧
      e.severity = s ∧ e.occurrence = o ∧ e.detection = d ∧ e.id = id ∧
      (∀ e' : FMEAEntry,
        FMEAEntry.create id component function_ failure_mode failure_effect
          failure_cause s o d recommended_action = .ok e' →
        e'.rpn = e'.severity * e'.occurrence * e'.detection ∧
        e'.risk_level = classify_risk e'.rpn) := by
  obtain ⟨hlo, hhi⟩ := rpn_bounds hs1 hs2 ho1 ho2 hd1 hd2
  have hok : FMEAEntry.create id component function_ failure_mode failure_effect
      failure_cause s o d recommended_action =
      .ok ⟨id, component, function_, failure_mode, failure_effect, failure_cause,
        s, o, d, compute_rpn s o d, recommended_action,
        classify_risk (compute_rpn s o d)⟩ :=
    validateEntry_ok_of _ hs1 hs2 ho1 ho2 hd1 hd2 hlo hhi rfl rfl
  refine ⟨_, hok, rfl, rfl, rfl, rfl, rfl, rfl, ?_⟩
  intro e' h'
  rw [hok] at h'
  injection h' with h'
  subst h'
  exact ⟨rfl, rfl⟩

/-- Claim C1 witness: the factory at a concrete input. -/
theorem create_factory_consistent_witness :
    ∃ e : FMEAEntry,
      FMEAEntry.create "DFMEA-001" "Brake Caliper" "Apply clamping force"
        "Piston seizure" "Reduced braking force" "Corrosion"
        8 5 10 "Apply coating" = .ok e ∧
      e.rpn = 8 * 5 * 10 ∧
      e.risk_level = classify_risk e.rpn ∧
      e.severity = 8 ∧ e.occurrence = 5 ∧ e.detection = 10 ∧
      e.id = "DFMEA-001" ∧
      (∀ e' : FMEAEntry,
        FMEAEntry.create "DFMEA-001" "Brake Caliper" "Apply clamping force"
          "Piston seizure" "Reduced braking force" "Corrosion"
          8 5 10 "Apply coating" = .ok e' →
        e'.rpn = e'.severity * e'.occurrence * e'.detection ∧
        e'.risk_level = classify_risk e'.rpn) := by
  have := create_factory_consistent "DFMEA-001" "Brake Caliper"
    "Apply clamping force" "Piston seizure" "Reduced braking force" "Corrosion"
    "Apply coating" 8 5 10 (by decide) (by decide) (by decide) (by decide)
    (by decide) (by decide)
  simpa using this

/-- Claim C2: `classify_risk` maps an rpn to a tier by the fixed thresholds
100/200/400 with ties going to the upper band — boundary values evaluate as
listed — and the tier is monotonically non-decreasing as rpn increases. -/
theorem classify_risk_boundaries_monotone (r1 r2 : Int) (h : r1 ≤ r2) :
    (classify_risk 99 = .low ∧ classify_risk 100 = .medium ∧
     classify_risk 199 = .medium ∧ classify_risk 200 = .high ∧
     classify_risk 399 = .high ∧ classify_risk 400 = .critical ∧
     classify_risk 1000 = .critical) ∧
    tierRank (classify_risk r1) ≤ tierRank (classify_risk r2) := by
  refine ⟨by decide, ?_⟩
  unfold classify_risk
  split_ifs <;> simp only [tierRank] <;> omega

/-- Claim C2 witness: the boundary table plus monotonicity at 150 ≤ 250. -/
theorem classify_risk_boundaries_monotone_witness :
    ((classify_risk 99 = .low ∧ classify_risk 100 = .medium ∧
      classify_risk 199 = .medium ∧ classify_risk 200 = .high ∧
      classify_risk 399 = .high ∧ classify_risk 400 = .critical ∧
      classify_risk 1000 = .critical) ∧
     tierRank (classify_risk 150) ≤ tierRank (classify_risk 250)) :=
  classify_risk_boundaries_monotone 150 250 (by decide)

/-- Claim C3: direct construction with all fields supplied fails validation
whenever a rating is out of [1,10], rpn is out of [1,1000], rpn differs from
the product of the ratings, or risk_level differs from `classify_risk(rpn)`;
the two consistency failures report the expected and the actual value, and a
mismatch is never silently corrected (the error is returned, not an adjusted
record). -/
theorem validateEntry_rejects_inconsistent (e : FMEAEntry)
    (h : ¬(1 ≤ e.severity ∧ e.severity ≤ 10) ∨
         ¬(1 ≤ e.occurrence ∧ e.occurrence ≤ 10) ∨
         ¬(1 ≤ e.detection ∧ e.detection ≤ 10) ∨
         ¬(1 ≤ e.rpn ∧ e.rpn ≤ 1000) ∨
         e.rpn ≠ compute_rpn e.severity e.occurrence e.detection ∨
         e.risk_level ≠ classify_risk e.rpn) :
    (∃ err, validateEntry e = .error err) ∧
    ((1 ≤ e.severity ∧ e.severity ≤ 10) →
     (1 ≤ e.occurrence ∧ e.occurrence ≤ 10) →
     (1 ≤ e.detection ∧ e.detection ≤ 10) →
     (1 ≤ e.rpn ∧ e.rpn ≤ 1000) →
     e.rpn ≠ compute_rpn e.severity e.occurrence e.detection →
     validateEntry e = .error (.rpnMismatch e.rpn e.severity e.occurrence
       e.detection (compute_rpn e.severity e.occurrence e.detection))) ∧
    ((1 ≤ e.severity ∧ e.severity ≤ 10) →
     (1 ≤ e.occurrence ∧ e.occurrence ≤ 10) →
     (1 ≤ e.detection ∧ e.detection ≤ 10) →
     (1 ≤ e.rpn ∧ e.rpn ≤ 1000) →
     e.rpn = compute_rpn e.severity e.occurrence e.detection →
     e.risk_level ≠ classify_risk e.rpn →
     validateEntry e = .error (.riskMismatch e.risk_level
       (classify_risk e.rpn) e.rpn)) := by
  refine ⟨?_, ?_, ?_⟩
  · unfold validateEntry
    split_ifs <;> first | exact ⟨_, rfl⟩ | tauto
  · intro hr1 hr2 hr3 hr4 hm
    unfold validateEntry
    rw [if_neg (not_not_intro hr1), if_neg (not_not_intro hr2),
      if_neg (not_not_intro hr3), if_neg (not_not_intro hr4), if_pos hm]
  · intro hr1 hr2 hr3 hr4 hp hm
    unfold validateEntry
    rw [if_neg (not_not_intro hr1), if_neg (not_not_intro hr2),
      if_neg (not_not_intro hr3), if_neg (not_not_intro hr4),
      if_neg (not_not_intro hp), if_pos hm]

/-- Claim C3 witness: the spec's own example — severity 9, occurrence 9,
detection 9, rpn 729 (internally consistent) but risk_level "low" — is
rejected with an error carrying the expected tier. -/
theorem validateEntry_rejects_inconsistent_witness :
    (∃ err, validateEntry
      ⟨"DFMEA-001", "X", "Y", "Z", "E", "C", 9, 9, 9, 729, "Fix it", .low⟩ =
      .error err) ∧
    validateEntry
      ⟨"DFMEA-001", "X", "Y", "Z", "E", "C", 9, 9, 9, 729, "Fix it", .low⟩ =
      .error (.riskMismatch .low
        (classify_risk (729 : Int)) (729 : Int)) := by
  have h := validateEntry_rejects_inconsistent
    ⟨"DFMEA-001", "X", "Y", "Z", "E", "C", 9, 9, 9, 729, "Fix it", .low⟩
    (by decide)
  exact ⟨h.1, h.2.2 (by decide) (by decide) (by decide) (by decide)
    (by decide) (by decide)⟩

/-! ### Helper lemmas for the summary -/

/-- The seed of a max-fold bounds nothing above the fold's result. -/
theorem foldl_max_init_le (xs : List Int) : ∀ x : Int, x ≤ xs.foldl max x := by
  induction xs with
  | nil => intro x; exact le_refl x
  | cons y ys ih =>
    intro x
    calc x ≤ max x y := le_max_left x y
    _ ≤ (y :: ys).foldl max x := by simpa [List.foldl] using ih (max x y)

/-- Every list element is bounded by the max-fold's result. -/
theorem foldl_max_mem_le (xs : List Int) :
    ∀ (x y : Int), y ∈ xs → y ≤ xs.foldl max x := by
  induction xs with
  | nil => intro _ _ hy; cases hy
  | cons z zs ih =>
    intro x y hy
    simp only [List.foldl]
    rcases List.mem_cons.mp hy with rfl | hy'
    · calc y ≤ max x y := le_max_right x y
      _ ≤ zs.foldl max (max x y) := foldl_max_init_le zs (max x y)
    · exact ih (max x z) y hy'

/-- The max-fold's result is the seed or one of the elements. -/
theorem foldl_max_attained (xs : List Int) :
    ∀ x : Int, xs.foldl max x = x ∨ xs.foldl max x ∈ xs := by
  induction xs with
  | nil => intro x; exact Or.inl rfl
  | cons y ys ih =>
    intro x
    simp only [List.foldl]
    rcases ih (max x y) with h | h
    · rcases max_choice x y with hxy | hxy
      · exact Or.inl (by rw [h, hxy])
      · exact Or.inr (by rw [h, hxy]; exact List.mem_cons_self y ys)
    · exact Or.inr (List.mem_cons_of_mem y h)

/-- The four tier counts partition any entry list. -/
theorem tier_counts_partition (l : List FMEAEntry) :
    (l.filter (fun e => e.risk_level = .critical)).length +
    (l.filter (fun e => e.risk_level = .high)).length +
    (l.filter (fun e => e.risk_level = .medium)).length +
    (l.filter (fun e => e.risk_level = .low)).length = l.length := by
  induction l with
  | nil => rfl
  | cons a t ih =>
    cases hrl : a.risk_level <;>
      simp [List.filter_cons, hrl] <;> omega

/-- Claim C6: `summarize` of the empty list is the all-zero summary with
avg 0; for a non-empty list the tier counts are exact (and partition the
total), max_rpn is the maximum rpn (an upper bound that is attained), and
avg_rpn is the mean of the rpns rounded to two decimal places. -/
theorem summarize_spec (entries : List FMEAEntry) (hne : entries ≠ []) :
    FMEASummary.from_entries [] = ⟨0, 0, 0, 0, 0, 0, 0⟩ ∧
    (FMEASummary.from_entries entries).total_entries = entries.length ∧
    (FMEASummary.from_entries entries).critical_count =
      (entries.filter (fun e => e.risk_level = .critical)).length ∧
    (FMEASummary.from_entries entries).high_count =
      (entries.filter (fun e => e.risk_level = .high)).length ∧
    (FMEASummary.from_entries entries).medium_count =
      (entries.filter (fun e => e.risk_level = .medium)).length ∧
    (FMEASummary.from_entries entries).low_count =
      (entries.filter (fun e => e.risk_level = .low)).length ∧
    (FMEASummary.from_entries entries).critical_count +
      (FMEASummary.from_entries entries).high_count +
      (FMEASummary.from_entries entries).medium_count +
      (FMEASummary.from_entries entries).low_count =
      (FMEASummary.from_entries entries).total_entries ∧
    (∀ e ∈ entries, e.rpn ≤ (FMEASummary.from_entries entries).max_rpn) ∧
    (∃ e ∈ entries, e.rpn = (FMEASummary.from_entries entries).max_rpn) ∧
    (FMEASummary.from_entries entries).avg_rpn =
      pyRound2 ((((entries.map (·.rpn)).sum : Int) : ℚ) / (entries.length : ℚ)) := by
  obtain ⟨a, t, rfl⟩ := List.exists_cons_of_ne_nil hne
  refine ⟨rfl, rfl, rfl, rfl, rfl, rfl, tier_counts_partition (a :: t), ?_, ?_, ?_⟩
  · intro e he
    have hmax : (FMEASummary.from_entries (a :: t)).max_rpn =
        (t.map (·.rpn)).foldl max a.rpn := rfl
    rw [hmax]
    rcases List.mem_cons.mp he with rfl | het
    · exact foldl_max_init_le _ _
    · exact foldl_max_mem_le _ _ _ (List.mem_map_of_mem (·.rpn) het)
  · have hmax : (FMEASummary.from_entries (a :: t)).max_rpn =
        (t.map (·.rpn)).foldl max a.rpn := rfl
    rw [hmax]
    rcases foldl_max_attained (t.map (·.rpn)) a.rpn with h | h
    · exact ⟨a, List.mem_cons_self a t, h.symm⟩
    · obtain ⟨e, het, hrpn⟩ := List.mem_map.mp h
      exact ⟨e, List.mem_cons_of_mem a het, hrpn⟩
  · have hlen : ((a :: t).map (·.rpn)).length = (a :: t).length :=
      List.length_map _ _
    rw [← hlen]
    rfl

/-- Claim C6 witness: the summary of a concrete one-entry list. -/
theorem summarize_spec_witness :
    FMEASummary.from_entries [] = ⟨0, 0, 0, 0, 0, 0, 0⟩ ∧
    (FMEASummary.from_entries
      [⟨"DFMEA-001", "a", "b", "c", "d", "e", 5, 3, 4, 60, "f", .low⟩]).total_entries =
      [(⟨"DFMEA-001", "a", "b", "c", "d", "e", 5, 3, 4, 60, "f", .low⟩ : FMEAEntry)].length ∧
    (FMEASummary.from_entries
      [⟨"DFMEA-001", "a", "b", "c", "d", "e", 5, 3, 4, 60, "f", .low⟩]).critical_count =
      ([(⟨"DFMEA-001", "a", "b", "c", "d", "e", 5, 3, 4, 60, "f", .low⟩ : FMEAEntry)].filter
        (fun e => e.risk_level = .critical)).length ∧
    (FMEASummary.from_entries
      [⟨"DFMEA-001", "a", "b", "c", "d", "e", 5, 3, 4, 60, "f", .low⟩]).high_count =
      ([(⟨"DFMEA-001", "a", "b", "c", "d", "e", 5, 3, 4, 60, "f", .low⟩ : FMEAEntry)].filter
        (fun e => e.risk_level = .high)).length ∧
    (FMEASummary.from_entries
      [⟨"DFMEA-001", "a", "b", "c", "d", "e", 5, 3, 4, 60, "f", .low⟩]).medium_count =
      ([(⟨"DFMEA-001", "a", "b", "c", "d", "e", 5, 3, 4, 60, "f", .low⟩ : FMEAEntry)].filter
        (fun e => e.risk_level = .medium)).length ∧
    (FMEASummary.from_entries
      [⟨"DFMEA-001", "a", "b", "c", "d", "e", 5, 3, 4, 60, "f", .low⟩]).low_count =
      ([(⟨"DFMEA-001", "a", "b", "c", "d", "e", 5, 3, 4, 60, "f", .low⟩ : FMEAEntry)].filter
        (fun e => e.risk_level = .low)).length ∧
    (FMEASummary.from_entries
      [⟨"DFMEA-001", "a", "b", "c", "d", "e", 5, 3, 4, 60, "f", .low⟩]).critical_count +
      (FMEASummary.from_entries
        [⟨"DFMEA-001", "a", "b", "c", "d", "e", 5, 3, 4, 60, "f", .low⟩]).high_count +
      (FMEASummary.from_entries
        [⟨"DFMEA-001", "a", "b", "c", "d", "e", 5, 3, 4, 60, "f", .low⟩]).medium_count +
      (FMEASummary.from_entries
        [⟨"DFMEA-001", "a", "b", "c", "d", "e", 5, 3, 4, 60, "f", .low⟩]).low_count =
      (FMEASummary.from_entries
        [⟨"DFMEA-001", "a", "b", "c", "d", "e", 5, 3, 4, 60, "f", .low⟩]).total_entries ∧
    (∀ e ∈ [(⟨"DFMEA-001", "a", "b", "c", "d", "e", 5, 3, 4, 60, "f", .low⟩ : FMEAEntry)],
      e.rpn ≤ (FMEASummary.from_entries
        [⟨"DFMEA-001", "a", "b", "c", "d", "e", 5, 3, 4, 60, "f", .low⟩]).max_rpn) ∧
    (∃ e ∈ [(⟨"DFMEA-001", "a", "b", "c", "d", "e", 5, 3, 4, 60, "f", .low⟩ : FMEAEntry)],
      e.rpn = (FMEASummary.from_entries
        [⟨"DFMEA-001", "a", "b", "c", "d", "e", 5, 3, 4, 60, "f", .low⟩]).max_rpn) ∧
    (FMEASummary.from_entries
      [⟨"DFMEA-001", "a", "b", "c", "d", "e", 5, 3, 4, 60, "f", .low⟩]).avg_rpn =
      pyRound2 (((([(⟨"DFMEA-001", "a", "b", "c", "d", "e", 5, 3, 4, 60, "f", .low⟩ :
        FMEAEntry)].map (·.rpn)).sum : Int) : ℚ) /
        (([(⟨"DFMEA-001", "a", "b", "c", "d", "e", 5, 3, 4, 60, "f", .low⟩ :
          FMEAEntry)].length : ℚ))) :=
  summarize_spec [⟨"DFMEA-001", "a", "b", "c", "d", "e", 5, 3, 4, 60, "f", .low⟩]
    (by simp)

/-- Claim C7 counterexample: a record whose six text fields are all empty —
so certainly empty after trimming — passes validation, contradicting the
claim that such a construction always fails.  (In the source, only
`ComponentInput` carries `min_length=1`; the `FMEAEntry` text fields are
declared without any length or trim constraint.) -/
theorem empty_text_fields_accepted :
    validateEntry ⟨"DFMEA-001", "", "", "", "", "", 5, 3, 4, 60, "", .low⟩ =
      .ok ⟨"DFMEA-001", "", "", "", "", "", 5, 3, 4, 60, "", .low⟩ := by
  rfl

/-- Claim C7 amended: entry validation does not examine the text fields at
all — a record whose numeric fields satisfy the invariants passes validation
whatever its text fields hold, including empty or whitespace-only strings. -/
theorem text_fields_not_validated
    (id component function_ failure_mode failure_effect failure_cause
      recommended_action : String) (s o d rpn : Int) (rl : RiskLevel)
    (hs1 : 1 ≤ s) (hs2 : s ≤ 10) (ho1 : 1 ≤ o) (ho2 : o ≤ 10)
    (hd1 : 1 ≤ d) (hd2 : d ≤ 10)
    (hprod : rpn = s * o * d) (hrl : rl = classify_risk rpn) :
    validateEntry ⟨id, component, function_, failure_mode, failure_effect,
        failure_cause, s, o, d, rpn, recommended_action, rl⟩ =
      .ok ⟨id, component, function_, failure_mode, failure_effect,
        failure_cause, s, o, d, rpn, recommended_action, rl⟩ := by
  obtain ⟨hlo, hhi⟩ := rpn_bounds hs1 hs2 ho1 ho2 hd1 hd2
  exact validateEntry_ok_of _ hs1 hs2 ho1 ho2 hd1 hd2
    (hprod ▸ hlo) (hprod ▸ hhi) hprod hrl

/-- Claim C7 amended witness: all six text fields empty, valid numbers. -/
theorem text_fields_not_validated_witness :
    validateEntry ⟨"", "", "", "", "", "", 5, 3, 4, 60, "", .low⟩ =
      .ok ⟨"", "", "", "", "", "", 5, 3, 4, 60, "", .low⟩ :=
  text_fields_not_validated "" "" "" "" "" "" "" 5 3 4 60 .low
    (by decide) (by decide) (by decide) (by decide) (by decide) (by decide)
    (by decide) (by decide)

/-! ### Helper lemmas for the element loop -/

/-- Characterisation of the element loop started at index `i`: the successes
are the `filterMap` of the factory over the indexed elements, the diagnostics
are one per failing element (tagged with the 1-based position), and together
they account for every element. -/
theorem collectFrom_spec (raws : List Json) : ∀ i : Nat,
    (collectFrom i raws).1 = (List.enumFrom i raws).filterMap
      (fun p => (tryCreateEntry p.1 p.2).toOption) ∧
    (collectFrom i raws).2 = (List.enumFrom i raws).filterMap
      (fun p => match tryCreateEntry p.1 p.2 with
        | .ok _ => none
        | .error err => some (p.1 + 1, err)) ∧
    (collectFrom i raws).1.length + (collectFrom i raws).2.length =
      raws.length := by
  induction raws with
  | nil => intro i; exact ⟨rfl, rfl, rfl⟩
  | cons j rest ih =>
    intro i
    obtain ⟨ih1, ih2, ih3⟩ := ih (i + 1)
    cases h : tryCreateEntry i j with
    | ok e =>
      refine ⟨?_, ?_, ?_⟩
      · simp [collectFrom, List.enumFrom, List.filterMap_cons, h,
          Except.toOption, ih1]
      · simp [collectFrom, List.enumFrom, List.filterMap_cons, h,
          Except.toOption, ih2]
      · simp only [collectFrom, h, List.length_cons]
        omega
    | error err =>
      refine ⟨?_, ?_, ?_⟩
      · simp [collectFrom, List.enumFrom, List.filterMap_cons, h,
          Except.toOption, ih1]
      · simp [collectFrom, List.enumFrom, List.filterMap_cons, h,
          Except.toOption, ih2]
      · simp only [collectFrom, h, List.length_cons]
        omega

/-- A successful factory call inside the loop yields exactly the id the loop
assigned for that index. -/
theorem tryCreateEntry_id : ∀ (i : Nat) (j : Json) (e : FMEAEntry),
    tryCreateEntry i j = .ok e → e.id = dfmeaId i := by
  intro i j e h
  cases j <;> simp only [tryCreateEntry] at h <;>
    try exact absurd h (by simp)
  rename_i kvs
  simp only [bind, Except.bind] at h
  repeat' split at h
  all_goals first
    | exact Except.noConfusion h
    | (rename_i e0 heq; injection h with h; subst h;
       rw [validateEntry_ok_eq heq])

/-- Claim C4: every element that fails construction is skipped and recorded
as one diagnostic while the rest are still processed (successes plus
diagnostics account for every element); the parse returns the surviving
entries whenever at least one element succeeds, and fails with an error
carrying the total number of validation errors exactly when none does. -/
theorem parse_partial_failure (raws : List Json) :
    (collectEntries raws).1.length + (collectEntries raws).2.length =
      raws.length ∧
    (collectEntries raws).1 = raws.enum.filterMap
      (fun p => (tryCreateEntry p.1 p.2).toOption) ∧
    (collectEntries raws).2 = raws.enum.filterMap
      (fun p => match tryCreateEntry p.1 p.2 with
        | .ok _ => none
        | .error err => some (p.1 + 1, err)) ∧
    ((collectEntries raws).1 ≠ [] →
      entriesFromDecoded raws = .ok (collectEntries raws).1) ∧
    ((collectEntries raws).1 = [] →
      entriesFromDecoded raws =
        .error (.noValidEntries (collectEntries raws).2.length)) := by
  obtain ⟨h1, h2, h3⟩ := collectFrom_spec raws 0
  refine ⟨h3, h1, h2, ?_, ?_⟩
  · intro hne
    unfold entriesFromDecoded
    rcases hc : collectEntries raws with ⟨es, errs⟩
    rw [hc] at hne
    simp only at hne ⊢
    rw [if_neg (by simpa [List.isEmpty_iff] using hne)]
  · intro hemp
    unfold entriesFromDecoded
    rcases hc : collectEntries raws with ⟨es, errs⟩
    rw [hc] at hemp
    simp only at hemp ⊢
    rw [if_pos (by simpa [List.isEmpty_iff] using hemp)]

/-- A decoded element with every required key, string text fields, and
in-range integral ratings (the spec's example element). -/
def sampleGoodElement : Json := .obj [("component", .str "Caliper"),
  ("function", .str "Apply force"), ("failure_mode", .str "Seizure"),
  ("failure_effect", .str "No braking"), ("failure_cause", .str "Corrosion"),
  ("severity", .num 9), ("occurrence", .num 3), ("detection", .num 5),
  ("recommended_action", .str "Apply coating")]

/-- A decoded element missing every required key. -/
def sampleBadElement : Json := .obj []

/-- The entry the loop builds from `sampleGoodElement` at index 0. -/
def sampleGoodEntry : FMEAEntry := ⟨"DFMEA-001", "Caliper", "Apply force",
  "Seizure", "No braking", "Corrosion", 9, 3, 5, 135, "Apply coating", .medium⟩

/-- Claim C4 witness: one valid and one invalid element — the parse returns
exactly the valid entry and records exactly one diagnostic. -/
theorem parse_partial_failure_witness :
    entriesFromDecoded [sampleGoodElement, sampleBadElement] =
      .ok [sampleGoodEntry] ∧
    (collectEntries [sampleGoodElement, sampleBadElement]).2.length = 1 := by
  have h := (parse_partial_failure [sampleGoodElement, sampleBadElement]).2.2.2.1
    (by decide)
  rw [h]
  exact ⟨rfl, rfl⟩

/-- Claim C5: the loop's successes are exactly the `filterMap` of the factory
over the (0-based) indexed elements — so they appear in original array order,
counting skipped elements — and every successful entry's id is `"DFMEA-"`
followed by its 1-based position zero-padded to 3 digits. -/
theorem parse_ids_in_order (raws : List Json) :
    (collectEntries raws).1 = raws.enum.filterMap
      (fun p => (tryCreateEntry p.1 p.2).toOption) ∧
    ∀ p ∈ raws.enum, ∀ e : FMEAEntry, tryCreateEntry p.1 p.2 = .ok e →
      e.id = "DFMEA-" ++ zeroPad3 (p.1 + 1) := by
  refine ⟨(collectFrom_spec raws 0).1, ?_⟩
  intro p _ e h
  exact tryCreateEntry_id p.1 p.2 e h

/-- Claim C5 witness: with a failing element in first position, the sole
surviving entry keeps its original position's id "DFMEA-002". -/
theorem parse_ids_in_order_witness :
    (collectEntries [sampleBadElement, sampleGoodElement]).1 =
      [sampleBadElement, sampleGoodElement].enum.filterMap
        (fun p => (tryCreateEntry p.1 p.2).toOption) ∧
    ∀ e : FMEAEntry, tryCreateEntry 1 sampleGoodElement = .ok e →
      e.id = "DFMEA-" ++ zeroPad3 (1 + 1) := by
  have h := parse_ids_in_order [sampleBadElement, sampleGoodElement]
  exact ⟨h.1, fun e he =>
    h.2 (1, sampleGoodElement) (by simp [List.enum, List.enumFrom]) e he⟩

/-! ### Serialization of the output payload (`FMEAOutput`, C9)

`model_dump` turns the response into a JSON value (strings for the literal
enums, numbers for the ints and floats, null for an absent `html_report`);
reading the payload back re-runs pydantic validation, including the entry
consistency checks.  The model works at the level of JSON values, which is
what the dumped dict / `json.dumps` text denotes. -/

/-- Serialized form of a risk tier. -/
def riskLevelStr : RiskLevel → String
  | .low => "low"
  | .medium => "medium"
  | .high => "high"
  | .critical => "critical"

/-- Pydantic validation of the `risk_level` literal on parse-back. -/
def riskLevelOfStr (s : String) : Option RiskLevel :=
  if s = "low" then some .low
  else if s = "medium" then some .medium
  else if s = "high" then some .high
  else if s = "critical" then some .critical
  else none

/-- The `scope` literal: design | process | system. -/
inductive Scope where
  | design
  | process
  | system
deriving DecidableEq, Repr

/-- Serialized form of the scope literal. -/
def scopeStr : Scope → String
  | .design => "design"
  | .process => "process"
  | .system => "system"

/-- Pydantic validation of the `scope` literal on parse-back. -/
def scopeOfStr (s : String) : Option Scope :=
  if s = "design" then some .design
  else if s = "process" then some .process
  else if s = "system" then some .system
  else none

/-- The full output contract (`FMEAOutput`). -/
structure FMEAOutput where
  system_name : String
  analysis_date : String
  doi_reference : String
  scope : Scope
  entries : List FMEAEntry
  summary : FMEASummary
  html_report : Option String
deriving Repr

/-- A payload field that must be a string. -/
def asStr : Json → Option String
  | .str s => some s
  | _ => none

/-- A payload field that must be an int: pydantic also accepts an
integral float, which is exactly a rational with denominator 1. -/
def asInt : Json → Option Int
  | .num q => if q.den = 1 then some q.num else none
  | _ => none

/-- A count field.  (The model's counts are naturals; a serialized summary
always holds naturals, so the sign guard never fires on round trips.) -/
def asNat (j : Json) : Option Nat :=
  match asInt j with
  | some n => if 0 ≤ n then some n.toNat else none
  | none => none

/-- A float field (pydantic `float` accepts any JSON number). -/
def asNum : Json → Option ℚ
  | .num q => some q
  | _ => none

/-- Parse every element or fail — the all-or-nothing traversal pydantic
applies to a typed list field. -/
def traverseOption (f : Json → Option FMEAEntry) : List Json → Option (List FMEAEntry)
  | [] => some []
  | a :: t =>
    match f a with
    | some b =>
      match traverseOption f t with
      | some bs => some (b :: bs)
      | none => none
    | none => none

/-- An `Optional[str]` field: null or a string. -/
def asOptStr : Json → Option (Option String)
  | .null => some none
  | .str s => some (some s)
  | _ => none

/-- `model_dump` of one entry. -/
def entryToJson (e : FMEAEntry) : Json :=
  .obj [("id", .str e.id), ("component", .str e.component),
    ("function", .str e.function), ("failure_mode", .str e.failure_mode),
    ("failure_effect", .str e.failure_effect),
    ("failure_cause", .str e.failure_cause),
    ("severity", .num (e.severity : ℚ)), ("occurrence", .num (e.occurrence : ℚ)),
    ("detection", .num (e.detection : ℚ)), ("rpn", .num (e.rpn : ℚ)),
    ("recommended_action", .str e.recommended_action),
    ("risk_level", .str (riskLevelStr e.risk_level))]

/-- Parsing one entry back (`FMEAEntry(**fields)`): field types, then the
full pydantic validation, including the consistency checks. -/
def entryFromJson (j : Json) : Option FMEAEntry :=
  match j with
  | .obj kvs => do
    let id ← jsonGet kvs "id" >>= asStr
    let component ← jsonGet kvs "component" >>= asStr
    let function_ ← jsonGet kvs "function" >>= asStr
    let failure_mode ← jsonGet kvs "failure_mode" >>= asStr
    let failure_effect ← jsonGet kvs "failure_effect" >>= asStr
    let failure_cause ← jsonGet kvs "failure_cause" >>= asStr
    let severity ← jsonGet kvs "severity" >>= asInt
    let occurrence ← jsonGet kvs "occurrence" >>= asInt
    let detection ← jsonGet kvs "detection" >>= asInt
    let rpn ← jsonGet kvs "rpn" >>= asInt
    let recommended_action ← jsonGet kvs "recommended_action" >>= asStr
    let risk_level ← jsonGet kvs "risk_level" >>= asStr >>= riskLevelOfStr
    (validateEntry ⟨id, component, function_, failure_mode, failure_effect,
      failure_cause, severity, occurrence, detection, rpn,
      recommended_action, risk_level⟩).toOption
  | _ => none

/-- `model_dump` of the summary. -/
def summaryToJson (s : FMEASummary) : Json :=
  .obj [("total_entries", .num (s.total_entries : ℚ)),
    ("critical_count", .num (s.critical_count : ℚ)),
    ("high_count", .num (s.high_count : ℚ)),
    ("medium_count", .num (s.medium_count : ℚ)),
    ("low_count", .num (s.low_count : ℚ)),
    ("max_rpn", .num (s.max_rpn : ℚ)),
    ("avg_rpn", .num s.avg_rpn)]

/-- Parsing the summary back (plain typed fields, no cross-field checks —
`FMEASummary` declares no validator). -/
def summaryFromJson (j : Json) : Option FMEASummary :=
  match j with
  | .obj kvs => do
    let total_entries ← jsonGet kvs "total_entries" >>= asNat
    let critical_count ← jsonGet kvs "critical_count" >>= asNat
    let high_count ← jsonGet kvs "high_count" >>= asNat
    let medium_count ← jsonGet kvs "medium_count" >>= asNat
    let low_count ← jsonGet kvs "low_count" >>= asNat
    let max_rpn ← jsonGet kvs "max_rpn" >>= asInt
    let avg_rpn ← jsonGet kvs "avg_rpn" >>= asNum
    some ⟨total_entries, critical_count, high_count, medium_count,
      low_count, max_rpn, avg_rpn⟩
  | _ => none

/-- `model_dump` of the whole response payload. -/
def outputToJson (o : FMEAOutput) : Json :=
  .obj [("system_name", .str o.system_name),
    ("analysis_date", .str o.analysis_date),
    ("doi_reference", .str o.doi_reference),
    ("scope", .str (scopeStr o.scope)),
    ("entries", .arr (o.entries.map entryToJson)),
    ("summary", summaryToJson o.summary),
    ("html_report", match o.html_report with
      | some h => .str h
      | none => .null)]

/-- Parsing the whole payload back (`FMEAOutput(**payload)`). -/
def outputFromJson (j : Json) : Option FMEAOutput :=
  match j with
  | .obj kvs => do
    let system_name ← jsonGet kvs "system_name" >>= asStr
    let analysis_date ← jsonGet kvs "analysis_date" >>= asStr
    let doi_reference ← jsonGet kvs "doi_reference" >>= asStr
    let scope ← jsonGet kvs "scope" >>= asStr >>= scopeOfStr
    let entriesJson ← jsonGet kvs "entries"
    let entries ← match entriesJson with
      | .arr es => traverseOption entryFromJson es
      | _ => none
    let summary ← jsonGet kvs "summary" >>= summaryFromJson
    let html_report ← jsonGet kvs "html_report" >>= asOptStr
    some ⟨system_name, analysis_date, doi_reference, scope, entries,
      summary, html_report⟩
  | _ => none

/-! ### Round-trip lemmas (C9) -/

/-- The risk tier survives serialize-then-validate. -/
theorem riskLevel_roundtrip (rl : RiskLevel) :
    riskLevelOfStr (riskLevelStr rl) = some rl := by
  cases rl <;> rfl

/-- The scope literal survives serialize-then-validate. -/
theorem scope_roundtrip (sc : Scope) :
    scopeOfStr (scopeStr sc) = some sc := by
  cases sc <;> rfl

/-- A valid entry survives dump-then-parse unchanged. -/
theorem entry_roundtrip (e : FMEAEntry) (hv : validateEntry e = .ok e) :
    entryFromJson (entryToJson e) = some e := by
  simp [entryFromJson, entryToJson, jsonGet, asStr, asInt, bind,
    Rat.den_intCast, Rat.num_intCast, riskLevel_roundtrip, hv,
    Except.toOption]

/-- A summary survives dump-then-parse unchanged. -/
theorem summary_roundtrip (s : FMEASummary) :
    summaryFromJson (summaryToJson s) = some s := by
  simp [summaryFromJson, summaryToJson, jsonGet, asNat, asInt, asNum, bind,
    Rat.den_intCast, Rat.num_intCast, Rat.den_natCast, Rat.num_natCast]

/-- A list of valid entries survives dump-then-parse unchanged. -/
theorem entries_roundtrip (l : List FMEAEntry)
    (hv : ∀ e ∈ l, validateEntry e = .ok e) :
    traverseOption entryFromJson (l.map entryToJson) = some l := by
  induction l with
  | nil => rfl
  | cons a t ih =>
    simp [traverseOption, entry_roundtrip a (hv a (List.mem_cons_self a t)),
      ih (fun e he => hv e (List.mem_cons_of_mem a he))]

/-- Claim C9: serializing an `FMEAOutput` to the output payload and parsing
the payload back preserves every field of every entry and every field of the
summary — indeed the whole response — exactly, for any response whose entries
satisfy the construction invariants (as all produced entries do). -/
theorem output_roundtrip (o : FMEAOutput)
    (hv : ∀ e ∈ o.entries, validateEntry e = .ok e) :
    outputFromJson (outputToJson o) = some o := by
  obtain ⟨sn, ad, dr, sc, es, su, hr⟩ := o
  cases hr <;>
    simp [outputFromJson, outputToJson, jsonGet, asStr, asOptStr, bind,
      scope_roundtrip, summary_roundtrip, entries_roundtrip es hv]

/-- Claim C9 witness: a concrete one-entry response round-trips exactly. -/
theorem output_roundtrip_witness :
    outputFromJson (outputToJson
      ⟨"Brake System", "2026-02-18", "10.3390/su12010077", .design,
        [sampleGoodEntry], FMEASummary.from_entries [sampleGoodEntry], none⟩) =
    some ⟨"Brake System", "2026-02-18", "10.3390/su12010077", .design,
      [sampleGoodEntry], FMEASummary.from_entries [sampleGoodEntry], none⟩ :=
  output_roundtrip _ (fun e he => by
    simp only [List.mem_singleton] at he
    subst he
    rfl)

/-! ### The response text parser (`_parse_and_validate_entries`, C8/C10)

The raw model reply is cleaned of markdown fences (two `re.sub` passes),
stripped, sliced from the first `[` to the last `]`, decoded with
`json.loads`, checked to be a list, and fed element-wise to the factory.
The decoder below mirrors Python's `json` module on finite values: the
same whitespace set, strict strings (raw control characters rejected),
the same number grammar, and whole-input consumption. -/

/-- JSON whitespace (`json.decoder`): space, tab, newline, carriage return. -/
def isJsonWs (c : Char) : Bool :=
  c == ' ' || c == '\t' || c == '\n' || c == '\r'

/-- Skip JSON whitespace. -/
def skipWs (cs : List Char) : List Char := cs.dropWhile isJsonWs

/-- Python `str`/regex whitespace relevant here (ASCII): JSON whitespace plus
vertical tab and form feed. -/
def isPyWs (c : Char) : Bool :=
  c == ' ' || c == '\t' || c == '\n' || c == '\r' || c == '\x0b' || c == '\x0c'

/-- `str.strip()`: drop leading and trailing whitespace. -/
def pyStrip (cs : List Char) : List Char :=
  ((cs.dropWhile isPyWs).reverse.dropWhile isPyWs).reverse

/-- Value of a hex digit, if any. -/
def hexDigitVal (c : Char) : Option Nat :=
  if '0' ≤ c ∧ c ≤ '9' then some (c.toNat - '0'.toNat)
  else if 'a' ≤ c ∧ c ≤ 'f' then some (c.toNat - 'a'.toNat + 10)
  else if 'A' ≤ c ∧ c ≤ 'F' then some (c.toNat - 'A'.toNat + 10)
  else none

/-- Single-character string escapes. -/
def escChar (e : Char) : Option Char :=
  if e = '"' then some '"'
  else if e = '\\' then some '\\'
  else if e = '/' then some '/'
  else if e = 'b' then some (Char.ofNat 8)
  else if e = 'f' then some (Char.ofNat 12)
  else if e = 'n' then some '\n'
  else if e = 'r' then some '\r'
  else if e = 't' then some '\t'
  else none

/-- String body parser (after the opening quote), strict mode: a raw
character below 0x20 is rejected, as `json.loads` rejects raw control
characters.  Returns the decoded string and the input after the closing
quote.  (Surrogate pairing of `\uXXXX` escapes is outside the model.) -/
def parseStrAux (acc : List Char) : List Char → Option (String × List Char)
  | [] => none
  | c :: rest =>
    if c = '"' then some (String.mk acc.reverse, rest)
    else if c = '\\' then
      match rest with
      | [] => none
      | e :: rest2 =>
        if e = 'u' then
          match rest2 with
          | a :: b :: c2 :: d :: rest3 =>
            match hexDigitVal a, hexDigitVal b, hexDigitVal c2, hexDigitVal d with
            | some va, some vb, some vc, some vd =>
              parseStrAux (Char.ofNat (((va * 16 + vb) * 16 + vc) * 16 + vd) :: acc) rest3
            | _, _, _, _ => none
          | _ => none
        else
          match escChar e with
          | some ch => parseStrAux (ch :: acc) rest2
          | none => none
    else if 0x20 ≤ c.toNat then parseStrAux (c :: acc) rest
    else none

/-- Decimal value of a digit list. -/
def digitsToNat (ds : List Char) : Nat :=
  ds.foldl (fun a c => a * 10 + (c.toNat - '0'.toNat)) 0

/-- A nonempty run of decimal digits. -/
def digitRun (cs : List Char) : Option (List Char × List Char) :=
  match cs.takeWhile Char.isDigit with
  | [] => none
  | ds => some (ds, cs.dropWhile Char.isDigit)

/-- The integer part of the number grammar: `0 | [1-9][0-9]*`. -/
def intPart : List Char → Option (List Char × List Char)
  | [] => none
  | c :: r =>
    if c = '0' then some (['0'], r)
    else if c.isDigit then
      some (c :: r.takeWhile Char.isDigit, r.dropWhile Char.isDigit)
    else none

/-- The optional fraction group `(\.\d+)?`: its digits and the rest (the
whole input back when the group does not match). -/
def fracPart (cs : List Char) : List Char × List Char :=
  match cs with
  | [] => ([], cs)
  | c :: r =>
    if c = '.' then
      match digitRun r with
      | some (ds, rest) => (ds, rest)
      | none => ([], cs)
    else ([], cs)

/-- The optional sign of the exponent: negativity flag plus what follows. -/
def expSign (r : List Char) : Bool × List Char :=
  match r with
  | [] => (false, r)
  | c2 :: r2 =>
    if c2 = '+' then (false, r2)
    else if c2 = '-' then (true, r2)
    else (false, r)

/-- The optional exponent group `([eE][-+]?\d+)?`: its sign and digits and
the rest (the whole input back when the group does not match). -/
def expPart (cs : List Char) : Bool × List Char × List Char :=
  match cs with
  | [] => (false, [], cs)
  | c :: r =>
    if c = 'e' ∨ c = 'E' then
      match digitRun (expSign r).2 with
      | some (ds, rest) => ((expSign r).1, ds, rest)
      | none => (false, [], cs)
    else (false, [], cs)

/-- The optional leading minus of a number: negativity flag plus the rest. -/
def numSign (cs : List Char) : Bool × List Char :=
  match cs with
  | [] => (false, cs)
  | c :: r => if c = '-' then (true, r) else (false, cs)

/-- The number grammar of `json.decoder.NUMBER_RE`:
`-?(0|[1-9]\d*)(\.\d+)?([eE][-+]?\d+)?`, longest match, exact value. -/
def parseNumber (cs : List Char) : Option (ℚ × List Char) :=
  match intPart (numSign cs).2 with
  | none => none
  | some (ids, cs2) =>
    let fds := (fracPart cs2).1
    let cs3 := (fracPart cs2).2
    let eds := (expPart cs3).2.1
    let mant : Int := (digitsToNat (ids ++ fds) : Int)
    let mant : Int := if (numSign cs).1 then -mant else mant
    let expo : Int := (if (expPart cs3).1 then -(digitsToNat eds : Int)
      else (digitsToNat eds : Int)) - (fds.length : Int)
    some (if 0 ≤ expo then mkRat (mant * ((10 : Nat) ^ expo.toNat : Nat)) 1
      else mkRat mant ((10 : Nat) ^ (-expo).toNat), (expPart cs3).2.2)

mutual

/-- A JSON value: skip whitespace, dispatch on the first character as
`scan_once` does — `{`, `[`, `"`, the three literals, then the number
grammar ("Expecting value" on anything else). -/
def parseVal (fuel : Nat) (cs : List Char) : Option (Json × List Char) :=
  match fuel with
  | 0 => none
  | fuel + 1 =>
    match skipWs cs with
    | [] => none
    | c :: r =>
      if c = '{' then parseObjBody fuel (skipWs r)
      else if c = '[' then parseArrBody fuel (skipWs r)
      else if c = '"' then
        match parseStrAux [] r with
        | some (s, rest) => some (.str s, rest)
        | none => none
      else if c = 'n' then
        if r.take 3 = ['u', 'l', 'l'] then some (.null, r.drop 3) else none
      else if c = 't' then
        if r.take 3 = ['r', 'u', 'e'] then some (.bool true, r.drop 3) else none
      else if c = 'f' then
        if r.take 4 = ['a', 'l', 's', 'e'] then some (.bool false, r.drop 4)
        else none
      else
        match parseNumber (c :: r) with
        | some (q, rest) => some (.num q, rest)
        | none => none

/-- Array body, after `[` and whitespace: `]` or one-or-more elements. -/
def parseArrBody (fuel : Nat) (cs : List Char) : Option (Json × List Char) :=
  match fuel with
  | 0 => none
  | fuel + 1 =>
    match cs with
    | ']' :: r => some (.arr [], r)
    | _ =>
      match parseElems fuel cs with
      | some (es, r) => some (.arr es, r)
      | none => none

/-- One-or-more comma-separated elements, consuming the closing `]`. -/
def parseElems (fuel : Nat) (cs : List Char) : Option (List Json × List Char) :=
  match fuel with
  | 0 => none
  | fuel + 1 =>
    match parseVal fuel cs with
    | none => none
    | some (v, r) =>
      match skipWs r with
      | ',' :: r2 =>
        match parseElems fuel r2 with
        | some (vs, r3) => some (v :: vs, r3)
        | none => none
      | ']' :: r2 => some ([v], r2)
      | _ => none

/-- Object body, after `{` and whitespace: `}` or one-or-more members. -/
def parseObjBody (fuel : Nat) (cs : List Char) : Option (Json × List Char) :=
  match fuel with
  | 0 => none
  | fuel + 1 =>
    match cs with
    | '}' :: r => some (.obj [], r)
    | _ =>
      match parseMembers fuel cs with
      | some (ms, r) => some (.obj ms, r)
      | none => none

/-- One-or-more `"key": value` members, consuming the closing `}`.
Called with whitespace already skipped. -/
def parseMembers (fuel : Nat) (cs : List Char) :
    Option (List (String × Json) × List Char) :=
  match fuel with
  | 0 => none
  | fuel + 1 =>
    match cs with
    | '"' :: r =>
      match parseStrAux [] r with
      | none => none
      | some (key, r1) =>
        match skipWs r1 with
        | ':' :: r2 =>
          match parseVal fuel r2 with
          | none => none
          | some (v, r3) =>
            match skipWs r3 with
            | ',' :: r4 =>
              match parseMembers fuel (skipWs r4) with
              | some (ms, r5) => some ((key, v) :: ms, r5)
              | none => none
            | '}' :: r4 => some ([(key, v)], r4)
            | _ => none
        | _ => none
    | _ => none

end

/-- `json.loads`: parse one value and require only whitespace after it. -/
def parseJsonWhole (cs : List Char) : Option Json :=
  match parseVal (3 * cs.length + 3) cs with
  | some (v, rest) => if (skipWs rest).isEmpty then some v else none
  | none => none

/-- The fence marker. -/
def fenceTicks : List Char := ['`', '`', '`']

/-- The optional language tag the first `re.sub` recognises. -/
def jsonTag : List Char := ['j', 's', 'o', 'n']

/-- `re.sub(r"^```(?:json)?\s*", "", raw, flags=re.MULTILINE)` as a left-to-
right scanner.  `atLS` records whether the current position is a line start
(position 0 or just after a newline), where `^` can match.  On a match the
fence, the optional tag, and the following whitespace run are dropped and
scanning resumes after them; otherwise one character is emitted.  Fuel is the
input length (every step consumes at least one character). -/
def stripLeadFences : Nat → Bool → List Char → List Char
  | 0, _, cs => cs
  | _ + 1, _, [] => []
  | fuel + 1, atLS, c :: rest =>
    if atLS ∧ fenceTicks.isPrefixOf (c :: rest) then
      let r1 := (c :: rest).drop 3
      let r2 := if jsonTag.isPrefixOf r1 then r1.drop 4 else r1
      let ws := r2.takeWhile isPyWs
      stripLeadFences fuel (ws.getLast? = some '\n') (r2.dropWhile isPyWs)
    else
      c :: stripLeadFences fuel (c = '\n') rest

/-- Whether a position (the remaining input) is at a line end (`$` under
`re.MULTILINE`): end of input or just before a newline. -/
def lineEndAt (l : List Char) : Bool :=
  l.isEmpty || l.head? == some '\n'

/-- `re.sub(r"\s*```$", "", cleaned, flags=re.MULTILINE)` as a scanner: at
each position, a match is a whitespace run followed by the fence at a line
end (within the run only its full extent can precede backticks, so the
greedy `\s*` has exactly one viable length).  On a match everything up to
the fence is dropped and scanning resumes at the line end. -/
def stripTrailFences : Nat → List Char → List Char
  | 0, cs => cs
  | _ + 1, [] => []
  | fuel + 1, c :: rest =>
    let r := (c :: rest).dropWhile isPyWs
    if fenceTicks.isPrefixOf r ∧ lineEndAt (r.drop 3) then
      stripTrailFences fuel (r.drop 3)
    else
      c :: stripTrailFences fuel rest

/-- First pass of fence cleaning. -/
def stripFence1 (cs : List Char) : List Char :=
  stripLeadFences cs.length true cs

/-- Second pass of fence cleaning. -/
def stripFence2 (cs : List Char) : List Char :=
  stripTrailFences cs.length cs

/-- Index of the first occurrence of a character (`str.find`). -/
def findCharIdx (c : Char) : List Char → Option Nat
  | [] => none
  | x :: xs => if x = c then some 0 else (findCharIdx c xs).map (· + 1)

/-- Index of the last occurrence of a character (`str.rfind`). -/
def rfindCharIdx (c : Char) (cs : List Char) : Option Nat :=
  (findCharIdx c cs.reverse).map (fun j => cs.length - 1 - j)

/-- The candidate array: `cleaned[start : end + 1]` from the first `[` to the
last `]`, `none` when either is absent.  (When the last `]` precedes the
first `[` the Python slice is empty, and so is this one.) -/
def extractCandidate (cs : List Char) : Option (List Char) :=
  match findCharIdx '[' cs, rfindCharIdx ']' cs with
  | some s, some e => some ((cs.drop s).take (e + 1 - s))
  | _, _ => none

/-- The cleaned response: both fence passes, then `strip()`. -/
def cleanedOf (raw : List Char) : List Char :=
  pyStrip (stripFence2 (stripFence1 raw))

/-- The tail of `_parse_and_validate_entries` after cleaning: slice, decode,
check for a list, then run the element loop. -/
def pipelineFromCleaned (cleaned : List Char) : Except AgentError (List FMEAEntry) :=
  match extractCandidate cleaned with
  | none => .error .noJsonArray
  | some js =>
    match parseJsonWhole js with
    | none => .error .jsonDecode
    | some j =>
      match j with
      | .arr raws => entriesFromDecoded raws
      | _ => .error .notAList

/-- The whole of `_parse_and_validate_entries`. -/
def parsePipeline (raw : List Char) : Except AgentError (List FMEAEntry) :=
  pipelineFromCleaned (cleanedOf raw)

/-! ### C10: the not-a-list branch is unreachable -/

/-- `findCharIdx` really points at the character searched for. -/
theorem findCharIdx_drop (c : Char) : ∀ (cs : List Char) (i : Nat),
    findCharIdx c cs = some i → ∃ tail, cs.drop i = c :: tail := by
  intro cs
  induction cs with
  | nil => intro i h; simp [findCharIdx] at h
  | cons x xs ih =>
    intro i h
    by_cases hx : x = c
    · simp only [findCharIdx, if_pos hx, Option.some.injEq] at h
      subst hx
      exact ⟨xs, by simp [← h]⟩
    · simp only [findCharIdx, if_neg hx, Option.map_eq_some'] at h
      obtain ⟨j, hj, rfl⟩ := h
      obtain ⟨tail, htail⟩ := ih j hj
      exact ⟨tail, by simpa using htail⟩

/-- The candidate substring is empty or starts with `[`. -/
theorem extractCandidate_head (cleaned js : List Char)
    (hx : extractCandidate cleaned = some js) :
    js = [] ∨ ∃ r, js = '[' :: r := by
  unfold extractCandidate at hx
  split at hx
  case h_1 s e hs he =>
    injection hx with hx
    obtain ⟨tail, htail⟩ := findCharIdx_drop '[' cleaned s hs
    cases hn : e + 1 - s with
    | zero => left; rw [← hx, hn]; rfl
    | succ k =>
      right
      refine ⟨tail.take k, ?_⟩
      rw [← hx, hn, htail]
      rfl
  case h_2 => exact absurd hx (by simp)

/-- The array-body parser only builds arrays. -/
theorem parseArrBody_arr (fuel : Nat) (cs : List Char) (v : Json)
    (r : List Char) (h : parseArrBody fuel cs = some (v, r)) :
    ∃ xs, v = .arr xs := by
  cases fuel with
  | zero => simp [parseArrBody] at h
  | succ fuel =>
    simp only [parseArrBody] at h
    split at h
    · injection h with h
      cases h
      exact ⟨[], rfl⟩
    · split at h
      · rename_i es r2 _
        injection h with h
        cases h
        exact ⟨es, rfl⟩
      · exact absurd h (by simp)

/-- A value whose first non-whitespace character is `[` parses, if at all,
to an array. -/
theorem parseVal_lbracket (fuel : Nat) (cs r : List Char) (v : Json)
    (rest : List Char) (hs : skipWs cs = '[' :: r)
    (h : parseVal fuel cs = some (v, rest)) : ∃ xs, v = .arr xs := by
  cases fuel with
  | zero => simp [parseVal] at h
  | succ fuel =>
    simp only [parseVal, hs] at h
    exact parseArrBody_arr fuel (skipWs r) v rest h

/-- The element loop's verdict is success or a `noValidEntries` error —
never the not-a-list error. -/
theorem entriesFromDecoded_ne_notAList (raws : List Json) :
    entriesFromDecoded raws ≠ .error .notAList := by
  unfold entriesFromDecoded
  split
  split <;> simp

/-- Claim C10: the parser's not-a-list branch is unreachable — every
candidate substring (first `[` to last `]`) either fails to decode or
decodes to a JSON array, so the whole pipeline can never return the
not-a-list error. -/
theorem notAList_unreachable (raw cleaned js : List Char)
    (hx : extractCandidate cleaned = some js) :
    (∀ v, parseJsonWhole js = some v → ∃ xs, v = .arr xs) ∧
    parsePipeline raw ≠ .error .notAList := by
  constructor
  · intro v hv
    rcases extractCandidate_head cleaned js hx with rfl | ⟨r, rfl⟩
    · exact absurd hv (by simp [parseJsonWhole, parseVal, skipWs, parseNumber,
        intPart])
    · unfold parseJsonWhole at hv
      split at hv
      · rename_i v0 rest0 hpv
        have hskip : skipWs ('[' :: r) = '[' :: r := rfl
        have := parseVal_lbracket _ _ r v0 rest0 hskip hpv
        split at hv
        · injection hv with hv; exact hv ▸ this
        · exact absurd hv (by simp)
      · exact absurd hv (by simp)
  · unfold parsePipeline pipelineFromCleaned
    split
    · simp
    · rename_i js0 hx0
      split
      · simp
      · rename_i j hj
        rcases extractCandidate_head _ _ hx0 with rfl | ⟨r, rfl⟩
        · exact absurd hj (by simp [parseJsonWhole, parseVal, skipWs,
            parseNumber, intPart])
        · unfold parseJsonWhole at hj
          split at hj
          · rename_i v0 rest0 hpv
            have hskip : skipWs ('[' :: r) = '[' :: r := rfl
            obtain ⟨xs, rfl⟩ :=
              parseVal_lbracket _ _ r v0 rest0 hskip hpv
            split at hj
            · injection hj with hj
              subst hj
              exact entriesFromDecoded_ne_notAList xs
            · exact absurd hj (by simp)
          · exact absurd hj (by simp)

/-- Claim C10 witness: a candidate sliced out of surrounding narration
decodes to an array. -/
theorem notAList_unreachable_witness :
    (∀ v, parseJsonWhole ('[' :: '1' :: ']' :: []) = some v →
      ∃ xs, v = Json.arr xs) ∧
    parsePipeline "x[1]y".toList ≠ .error .notAList :=
  notAList_unreachable "x[1]y".toList "x[1]y".toList ('[' :: '1' :: ']' :: [])
    (by rfl)

/-! ### C8: fence wrapping is invisible to the pipeline

The plan: a successfully decoded JSON text contains no backtick adjacent to
a newline (backticks can live only inside string literals, which contain no
raw newlines), so neither `re.sub` pass touches the unfenced text, and on
the fenced text they remove exactly the added fences.  Both runs therefore
clean to the same text, and the pipelines coincide. -/

/-- No backtick anywhere in the chunk. -/
def noTick (cs : List Char) : Prop := ∀ c ∈ cs, c ≠ '`'

/-- An adjacent pair is good when it is neither newline-then-backtick nor
backtick-then-newline. -/
def goodPair (a b : Char) : Prop :=
  ¬(a = '\n' ∧ b = '`') ∧ ¬(a = '`' ∧ b = '\n')

/-- A chunk of consumed JSON text: all adjacent pairs good, and neither end
a backtick.  Closed under concatenation. -/
def OkChunk (cs : List Char) : Prop :=
  List.Chain' goodPair cs ∧
  (∀ c ∈ cs.head?, c ≠ '`') ∧ (∀ c ∈ cs.getLast?, c ≠ '`')

theorem mem_of_head?_eq {cs : List Char} {c : Char} (h : c ∈ cs.head?) :
    c ∈ cs := by
  cases cs with
  | nil => simp at h
  | cons x xs => simp at h; simp [h]

theorem mem_of_getLast?_eq {cs : List Char} {c : Char} (h : c ∈ cs.getLast?) :
    c ∈ cs := by
  induction cs with
  | nil => simp at h
  | cons x xs ih =>
    cases xs with
    | nil => simp at h; simp [h]
    | cons y ys =>
      rw [List.getLast?_cons_cons] at h
      exact List.mem_cons_of_mem x (ih h)

theorem okChunk_nil : OkChunk [] := by
  refine ⟨List.chain'_nil, ?_, ?_⟩ <;> simp

theorem chain'_goodPair_of_noTick : ∀ (cs : List Char), noTick cs →
    List.Chain' goodPair cs := by
  intro cs
  induction cs with
  | nil => intro _; exact List.chain'_nil
  | cons c rest ih =>
    intro h
    rw [List.chain'_cons']
    refine ⟨?_, ih (fun d hd => h d (List.mem_cons_of_mem c hd))⟩
    intro y hy
    exact ⟨fun hp => h y (List.mem_cons_of_mem c (mem_of_head?_eq hy)) hp.2,
      fun hp => h c (List.mem_cons_self c rest) hp.1⟩

theorem chain'_goodPair_of_noNl : ∀ (cs : List Char), (∀ c ∈ cs, c ≠ '\n') →
    List.Chain' goodPair cs := by
  intro cs
  induction cs with
  | nil => intro _; exact List.chain'_nil
  | cons c rest ih =>
    intro h
    rw [List.chain'_cons']
    refine ⟨?_, ih (fun d hd => h d (List.mem_cons_of_mem c hd))⟩
    intro y hy
    exact ⟨fun hp => h c (List.mem_cons_self c rest) hp.1,
      fun hp => h y (List.mem_cons_of_mem c (mem_of_head?_eq hy)) hp.2⟩

theorem okChunk_of_noTick {cs : List Char} (h : noTick cs) : OkChunk cs := by
  refine ⟨chain'_goodPair_of_noTick cs h, ?_, ?_⟩
  · intro c hc; exact h c (mem_of_head?_eq hc)
  · intro c hc; exact h c (mem_of_getLast?_eq hc)

theorem okChunk_of_noNl {cs : List Char} (h : ∀ c ∈ cs, c ≠ '\n')
    (hh : ∀ c ∈ cs.head?, c ≠ '`') (hl : ∀ c ∈ cs.getLast?, c ≠ '`') :
    OkChunk cs :=
  ⟨chain'_goodPair_of_noNl cs h, hh, hl⟩

theorem okChunk_append {a b : List Char} (ha : OkChunk a) (hb : OkChunk b) :
    OkChunk (a ++ b) := by
  obtain ⟨hac, hah, hal⟩ := ha
  obtain ⟨hbc, hbh, hbl⟩ := hb
  refine ⟨?_, ?_, ?_⟩
  · rw [List.chain'_append]
    refine ⟨hac, hbc, ?_⟩
    intro x hx y hy
    exact ⟨fun hp => hbh y hy hp.2, fun hp => hal x hx hp.1⟩
  · cases a with
    | nil => simpa using hbh
    | cons c rest => simpa using hah
  · cases hbe : b with
    | nil => simpa [hbe] using hal
    | cons c rest =>
      rw [List.getLast?_append]
      rw [hbe] at hbl
      intro d hd
      have : (c :: rest).getLast?.isSome := by
        cases h2 : (c :: rest).getLast? with
        | none => simp [List.getLast?] at h2
        | some _ => rfl
      rw [Option.or_of_isSome this] at hd
      exact hbl d hd

/-! ### Consumed-text lemmas for the decoder components -/

/-- A chunk drawn from a backtick-free character class has no backticks. -/
theorem noTick_of_forall {cs : List Char} (p : Char → Bool)
    (hp : p '`' = false) (h : ∀ c ∈ cs, p c = true) : noTick cs := by
  intro c hc he
  rw [he] at hc
  exact absurd (h '`' hc) (by simp [hp])

/-- JSON whitespace is backtick-free. -/
theorem noTick_of_jsonWs {cs : List Char} (h : ∀ c ∈ cs, isJsonWs c = true) :
    noTick cs :=
  noTick_of_forall isJsonWs (by decide) h

/-- Python whitespace is backtick-free. -/
theorem noTick_of_pyWs {cs : List Char} (h : ∀ c ∈ cs, isPyWs c = true) :
    noTick cs :=
  noTick_of_forall isPyWs (by decide) h

/-- Digits are backtick-free. -/
theorem noTick_of_digits {cs : List Char} (h : ∀ c ∈ cs, c.isDigit = true) :
    noTick cs :=
  noTick_of_forall Char.isDigit (by decide) h


/-- `digitRun` consumes a nonempty digit prefix. -/
theorem digitRun_consumed {cs ds rest : List Char}
    (h : digitRun cs = some (ds, rest)) :
    cs = ds ++ rest ∧ (∀ c ∈ ds, c.isDigit = true) ∧ ds ≠ [] := by
  unfold digitRun at h
  split at h
  · exact absurd h (by simp)
  · rename_i ds0 hne
    injection h with h
    injection h with h1 h2
    subst h1 h2
    refine ⟨(List.takeWhile_append_dropWhile _ _).symm,
      fun c hc => List.mem_takeWhile_imp hc, fun hh => ?_⟩
    exact hne (by rw [← hh])

theorem intPart_consumed {cs ds rest : List Char}
    (h : intPart cs = some (ds, rest)) :
    cs = ds ++ rest ∧ (∀ c ∈ ds, c.isDigit = true) ∧ ds ≠ [] := by
  cases cs with
  | nil => exact absurd h (by simp [intPart])
  | cons c r =>
    simp only [intPart] at h
    split_ifs at h with h0 hd
    · injection h with h
      injection h with h1 h2
      subst h0
      rw [← h1, ← h2]
      exact ⟨rfl, by simp, by simp⟩
    · injection h with h
      injection h with h1 h2
      rw [← h1, ← h2]
      refine ⟨by simp [List.takeWhile_append_dropWhile], ?_, by simp⟩
      intro d hd2
      rcases List.mem_cons.mp hd2 with rfl | hd3
      · exact hd
      · exact List.mem_takeWhile_imp hd3

theorem fracPart_consumed {cs fds rest : List Char}
    (h : fracPart cs = (fds, rest)) :
    (fds = [] ∧ rest = cs) ∨
    (cs = '.' :: fds ++ rest ∧ (∀ c ∈ fds, c.isDigit = true) ∧ fds ≠ []) := by
  cases cs with
  | nil =>
    simp only [fracPart] at h
    injection h with h1 h2
    exact Or.inl ⟨h1.symm, h2.symm⟩
  | cons c r =>
    simp only [fracPart] at h
    split_ifs at h with hdot
    · split at h
      · rename_i ds rest0 hrun
        injection h with h1 h2
        subst hdot
        rw [← h1, ← h2]
        obtain ⟨he, hd, hne⟩ := digitRun_consumed hrun
        exact Or.inr ⟨by rw [he]; simp, hd, hne⟩
      · injection h with h1 h2
        exact Or.inl ⟨h1.symm, h2.symm⟩
    · injection h with h1 h2
      exact Or.inl ⟨h1.symm, h2.symm⟩

theorem expSign_consumed {r : List Char} {sb : Bool} {r1 : List Char}
    (h : expSign r = (sb, r1)) :
    r = r1 ∨ ∃ s1, r = s1 :: r1 ∧ s1 ≠ '`' := by
  cases r with
  | nil =>
    simp only [expSign] at h
    injection h with h1 h2
    exact Or.inl h2
  | cons c2 r2 =>
    simp only [expSign] at h
    split_ifs at h with hp hm <;> injection h with h1 h2
    · exact Or.inr ⟨c2, by rw [h2], by subst hp; decide⟩
    · exact Or.inr ⟨c2, by rw [h2], by subst hm; decide⟩
    · exact Or.inl h2

theorem expPart_consumed {cs : List Char} {sNeg : Bool} {eds rest : List Char}
    (h : expPart cs = (sNeg, eds, rest)) :
    rest = cs ∨ ∃ pre, cs = pre ++ rest ∧ noTick pre := by
  cases cs with
  | nil =>
    simp only [expPart] at h
    injection h with h1 h2
    injection h2 with h2 h3
    exact Or.inl h3.symm
  | cons c r =>
    simp only [expPart] at h
    split_ifs at h with he
    · split at h
      · rename_i ds rest0 hrun
        injection h with h1 h2
        injection h2 with h2 h3
        rw [← h3]
        rcases hsgn : expSign r with ⟨sb, r1⟩
        have hsn2 : (expSign r).2 = r1 := by rw [hsgn]
        rw [hsn2] at hrun
        obtain ⟨hre, hdd, -⟩ := digitRun_consumed hrun
        refine Or.inr ?_
        rcases expSign_consumed hsgn with hr1 | ⟨s1, hs1e, hs1⟩
        · refine ⟨c :: ds, by rw [hr1, hre]; simp, ?_⟩
          intro d hd
          rcases List.mem_cons.mp hd with rfl | hd2
          · rcases he with rfl | rfl <;> decide
          · exact noTick_of_digits hdd d hd2
        · refine ⟨c :: s1 :: ds, by rw [hs1e, hre]; simp, ?_⟩
          intro d hd
          rcases List.mem_cons.mp hd with rfl | hd2
          · rcases he with rfl | rfl <;> decide
          · rcases List.mem_cons.mp hd2 with rfl | hd3
            · exact hs1
            · exact noTick_of_digits hdd d hd3
      · injection h with h1 h2
        injection h2 with h2 h3
        exact Or.inl h3.symm
    · injection h with h1 h2
      injection h2 with h2 h3
      exact Or.inl h3.symm

theorem numSign_consumed {cs : List Char} {b : Bool} {cs1 : List Char}
    (h : numSign cs = (b, cs1)) :
    cs = cs1 ∨ cs = '-' :: cs1 := by
  cases cs with
  | nil =>
    simp only [numSign] at h
    injection h with h1 h2
    exact Or.inl h2
  | cons c r =>
    simp only [numSign] at h
    split_ifs at h with hm <;> injection h with h1 h2
    · subst hm; rw [h2]; exact Or.inr rfl
    · exact Or.inl h2


theorem parseNumber_consumed {cs : List Char} {q : ℚ} {rest : List Char}
    (h : parseNumber cs = some (q, rest)) :
    ∃ pre, cs = pre ++ rest ∧ noTick pre := by
  unfold parseNumber at h
  split at h
  · exact absurd h (by simp)
  · rename_i ids cs2 hint
    simp only [Option.some.injEq, Prod.mk.injEq] at h
    obtain ⟨-, h2⟩ := h
    obtain ⟨hie, hid, -⟩ := intPart_consumed hint
    have hids : noTick ids := noTick_of_digits hid
    rcases hexp : expPart (fracPart cs2).2 with ⟨xb, xds, xrest⟩
    have hxr : (expPart (fracPart cs2).2).2.2 = xrest := by rw [hexp]
    rw [hxr] at h2
    have step1 : ∃ p3, (fracPart cs2).2 = p3 ++ xrest ∧ noTick p3 := by
      rcases expPart_consumed hexp with hrr | ⟨p3, hp3, hnt⟩
      · exact ⟨[], by rw [hrr]; rfl, by intro c hc; simp at hc⟩
      · exact ⟨p3, hp3, hnt⟩
    obtain ⟨p3, hp3, hnt3⟩ := step1
    have step2 : ∃ p2, cs2 = p2 ++ xrest ∧ noTick p2 := by
      rcases hfrac : fracPart cs2 with ⟨fds, cs3⟩
      have hf1 : (fracPart cs2).2 = cs3 := by rw [hfrac]
      rw [hf1] at hp3
      rcases fracPart_consumed hfrac with ⟨-, hr⟩ | ⟨he, hd, -⟩
      · exact ⟨p3, by rw [← hr, hp3], hnt3⟩
      · refine ⟨'.' :: fds ++ p3, by rw [he, hp3]; simp, ?_⟩
        intro d hd2
        rcases List.mem_cons.mp hd2 with rfl | hd3
        · decide
        · rcases List.mem_append.mp hd3 with hd4 | hd5
          · exact noTick_of_digits hd d hd4
          · exact hnt3 d hd5
    obtain ⟨p2, hp2, hnt2⟩ := step2
    have step3 : ∃ p1, (numSign cs).2 = p1 ++ xrest ∧ noTick p1 := by
      refine ⟨ids ++ p2, by rw [hie, hp2]; simp, ?_⟩
      intro c hc
      rcases List.mem_append.mp hc with hc2 | hc3
      · exact hids c hc2
      · exact hnt2 c hc3
    obtain ⟨p1, hp1, hnt1⟩ := step3
    rcases hsgn : numSign cs with ⟨sb, cs1⟩
    have hs2 : (numSign cs).2 = cs1 := by rw [hsgn]
    rw [hs2] at hp1
    rcases numSign_consumed hsgn with hcs | hcs
    · exact ⟨p1, by rw [hcs, hp1, h2], hnt1⟩
    · refine ⟨'-' :: p1, by rw [hcs, hp1, h2]; rfl, ?_⟩
      intro c hc
      rcases List.mem_cons.mp hc with rfl | hc2
      · decide
      · exact hnt1 c hc2

/-- Extending a string-body chunk by one printable character. -/
theorem chunk_cons {c : Char} {cs rest pre : List Char}
    (hc : 0x20 ≤ c.toNat) (h1 : cs = pre ++ rest)
    (h2 : ∀ d ∈ pre, 0x20 ≤ d.toNat) (h3 : pre.getLast? = some '"') :
    c :: cs = (c :: pre) ++ rest ∧ (∀ d ∈ c :: pre, 0x20 ≤ d.toNat) ∧
      (c :: pre).getLast? = some '"' := by
  refine ⟨by rw [h1]; rfl, ?_, ?_⟩
  · intro d hd
    rcases List.mem_cons.mp hd with rfl | hd2
    · exact hc
    · exact h2 d hd2
  · cases pre with
    | nil => simp at h3
    | cons p ps => rw [List.getLast?_cons_cons]; exact h3

theorem hexDigit_printable {c : Char} {v : Nat} (h : hexDigitVal c = some v) :
    0x20 ≤ c.toNat := by
  unfold hexDigitVal at h
  split_ifs at h with h1 h2 h3
  · have := h1.1
    rw [Char.le_def] at this
    calc (0x20 : Nat) ≤ '0'.toNat := by decide
    _ ≤ c.toNat := this
  · have := h2.1
    rw [Char.le_def] at this
    calc (0x20 : Nat) ≤ 'a'.toNat := by decide
    _ ≤ c.toNat := this
  · have := h3.1
    rw [Char.le_def] at this
    calc (0x20 : Nat) ≤ 'A'.toNat := by decide
    _ ≤ c.toNat := this

theorem escChar_printable {e ch : Char} (h : escChar e = some ch) :
    0x20 ≤ e.toNat := by
  unfold escChar at h
  split_ifs at h with h1 h2 h3 h4 h5 h6 h7 h8
  · subst h1; decide
  · subst h2; decide
  · subst h3; decide
  · subst h4; decide
  · subst h5; decide
  · subst h6; decide
  · subst h7; decide
  · subst h8; decide

theorem parseStrAux_consumed {s : String} : ∀ (acc cs rest : List Char),
    parseStrAux acc cs = some (s, rest) →
    ∃ pre, cs = pre ++ rest ∧ (∀ c ∈ pre, 0x20 ≤ c.toNat) ∧
      pre.getLast? = some '"' := by
  intro acc cs
  induction acc, cs using parseStrAux.induct with
  | case1 acc =>
    intro rest h
    simp [parseStrAux] at h
  | case2 acc rest2 =>
    intro rest h
    unfold parseStrAux at h
    rw [if_pos rfl] at h
    injection h with h
    injection h with h1 h2
    refine ⟨['"'], by simp [h2], ?_, rfl⟩
    intro d hd
    simp at hd
    subst hd
    decide
  | case3 acc hq =>
    intro rest h
    unfold parseStrAux at h
    simp at h
  | case4 acc a b c2 d rest3 va vb vc vd hd hc hb ha hq ih =>
    intro rest h
    unfold parseStrAux at h
    rw [if_neg (by decide : ¬('\\' = '"')), if_pos rfl] at h
    simp only [if_pos rfl, ha, hb, hc, hd] at h
    obtain ⟨pre, h1, h2, h3⟩ := ih rest h
    obtain ⟨h1, h2, h3⟩ := chunk_cons (hexDigit_printable hd) h1 h2 h3
    obtain ⟨h1, h2, h3⟩ := chunk_cons (hexDigit_printable hc) h1 h2 h3
    obtain ⟨h1, h2, h3⟩ := chunk_cons (hexDigit_printable hb) h1 h2 h3
    obtain ⟨h1, h2, h3⟩ := chunk_cons (hexDigit_printable ha) h1 h2 h3
    obtain ⟨h1, h2, h3⟩ := chunk_cons (by decide : 0x20 ≤ 'u'.toNat) h1 h2 h3
    obtain ⟨h1, h2, h3⟩ := chunk_cons (by decide : 0x20 ≤ '\\'.toNat) h1 h2 h3
    exact ⟨_, h1, h2, h3⟩
  | case5 acc a b c2 d rest3 hfail hq =>
    intro rest h
    unfold parseStrAux at h
    rw [if_neg (by decide : ¬('\\' = '"')), if_pos rfl] at h
    simp only [if_pos rfl] at h
    split at h
    next => exact absurd h (by simp)
    next hnt => exact absurd trivial hnt
  | case6 acc rest2 hshape hq =>
    intro rest h
    unfold parseStrAux at h
    rw [if_neg (by decide : ¬('\\' = '"')), if_pos rfl] at h
    simp only [if_pos rfl] at h
    split at h
    next => exact absurd h (by simp)
    next hnt => exact absurd trivial hnt
  | case7 acc e rest2 hu ch hesc hq ih =>
    intro rest h
    unfold parseStrAux at h
    rw [if_neg (by decide : ¬('\\' = '"')), if_pos rfl] at h
    simp only [if_neg hu, hesc] at h
    obtain ⟨pre, h1, h2, h3⟩ := ih rest h
    obtain ⟨h1, h2, h3⟩ := chunk_cons (escChar_printable hesc) h1 h2 h3
    obtain ⟨h1, h2, h3⟩ := chunk_cons (by decide : 0x20 ≤ '\\'.toNat) h1 h2 h3
    exact ⟨_, h1, h2, h3⟩
  | case8 acc e rest2 hu hesc hq =>
    intro rest h
    unfold parseStrAux at h
    rw [if_neg (by decide : ¬('\\' = '"')), if_pos rfl] at h
    simp only [if_neg hu, hesc] at h
    exact absurd h (by simp)
  | case9 acc e rest2 hq hbs hge ih =>
    intro rest h
    unfold parseStrAux at h
    rw [if_neg hq, if_neg hbs, if_pos hge] at h
    obtain ⟨pre, h1, h2, h3⟩ := ih rest h
    obtain ⟨h1, h2, h3⟩ := chunk_cons hge h1 h2 h3
    exact ⟨_, h1, h2, h3⟩
  | case10 acc e rest2 hq hbs hlt =>
    intro rest h
    unfold parseStrAux at h
    rw [if_neg hq, if_neg hbs, if_neg hlt] at h
    exact absurd h (by simp)

/-- Splitting off the leading whitespace. -/
theorem skipWs_decomp (cs : List Char) :
    cs = cs.takeWhile isJsonWs ++ skipWs cs :=
  (List.takeWhile_append_dropWhile _ _).symm

/-- A leading-whitespace chunk is a good chunk. -/
theorem okChunk_ws (cs : List Char) : OkChunk (cs.takeWhile isJsonWs) :=
  okChunk_of_noTick (noTick_of_jsonWs (fun _ hc => List.mem_takeWhile_imp hc))

/-- A single non-backtick character is a good chunk. -/
theorem okChunk_singleton {c : Char} (h : c ≠ '`') : OkChunk [c] :=
  okChunk_of_noTick (fun d hd => by simp at hd; subst hd; exact h)

/-- A consumed string literal (opening quote, printable body, closing
quote) is a good chunk: it holds no newline at all and ends in a quote. -/
theorem okChunk_strChunk {pre : List Char}
    (h2 : ∀ c ∈ pre, 0x20 ≤ c.toNat) (h3 : pre.getLast? = some '"') :
    OkChunk ('"' :: pre) := by
  refine okChunk_of_noNl ?_ ?_ ?_
  · intro c hc
    rcases List.mem_cons.mp hc with rfl | hc2
    · decide
    · intro he
      subst he
      exact absurd (h2 _ hc2) (by decide)
  · intro c hc
    simp at hc
    subst hc
    decide
  · intro c hc
    cases pre with
    | nil => simp at h3
    | cons p ps =>
      rw [List.getLast?_cons_cons, h3] at hc
      simp at hc
      subst hc
      decide

/-! The consumed text of a successful parse is a good chunk: backticks occur
only inside string literals (which hold no raw newline), so no backtick is
adjacent to a newline and neither end of the consumed text is a backtick.
Proved by mutual induction on the parser's fuel. -/

mutual

theorem parseVal_consumed : ∀ (fuel : Nat) (cs : List Char) (v : Json)
    (rest : List Char), parseVal fuel cs = some (v, rest) →
    ∃ core, skipWs cs = core ++ rest ∧ OkChunk core
  | 0, cs, v, rest, h => by simp [parseVal] at h
  | fuel + 1, cs, v, rest, h => by
    unfold parseVal at h
    split at h
    · exact absurd h (by simp)
    · rename_i c r hskip
      rw [hskip]
      split_ifs at h with hc1 hc2 hc3 hc4 hc5 hc6 hc7 hc8 hc9
      · -- object
        obtain ⟨pre, hp, hok⟩ := parseObjBody_consumed fuel (skipWs r) v rest h
        refine ⟨c :: (r.takeWhile isJsonWs ++ pre), ?_, ?_⟩
        · have hr : r = r.takeWhile isJsonWs ++ (pre ++ rest) := by
            rw [← hp]; exact skipWs_decomp r
          conv_lhs => rw [hr]
          simp
        · subst hc1
          exact okChunk_append (okChunk_singleton (by decide))
            (okChunk_append (okChunk_ws r) hok)
      · -- array
        obtain ⟨pre, hp, hok⟩ := parseArrBody_consumed fuel (skipWs r) v rest h
        refine ⟨c :: (r.takeWhile isJsonWs ++ pre), ?_, ?_⟩
        · have hr : r = r.takeWhile isJsonWs ++ (pre ++ rest) := by
            rw [← hp]; exact skipWs_decomp r
          conv_lhs => rw [hr]
          simp
        · subst hc2
          exact okChunk_append (okChunk_singleton (by decide))
            (okChunk_append (okChunk_ws r) hok)
      · -- string
        split at h
        · rename_i s0 rest2 hstr
          injection h with h
          injection h with h1 h2
          obtain ⟨preS, hp, hprint, hlast⟩ := parseStrAux_consumed [] r rest2 hstr
          refine ⟨c :: preS, ?_, ?_⟩
          · rw [hp, h2]; rfl
          · subst hc3
            exact okChunk_strChunk hprint hlast
        · exact absurd h (by simp)
      · -- null
        injection h with h
        injection h with h1 h2
        refine ⟨c :: ['u', 'l', 'l'], ?_, ?_⟩
        · rw [← h2]
          have hr : r = ['u', 'l', 'l'] ++ List.drop 3 r := by
            rw [← hc5]; exact (List.take_append_drop 3 r).symm
          rw [hr]; rfl
        · subst hc4
          exact okChunk_of_noTick (by unfold noTick; decide)
      · -- true
        injection h with h
        injection h with h1 h2
        refine ⟨c :: ['r', 'u', 'e'], ?_, ?_⟩
        · rw [← h2]
          have hr : r = ['r', 'u', 'e'] ++ List.drop 3 r := by
            rw [← hc7]; exact (List.take_append_drop 3 r).symm
          rw [hr]; rfl
        · subst hc6
          exact okChunk_of_noTick (by unfold noTick; decide)
      · -- false
        injection h with h
        injection h with h1 h2
        refine ⟨c :: ['a', 'l', 's', 'e'], ?_, ?_⟩
        · rw [← h2]
          have hr : r = ['a', 'l', 's', 'e'] ++ List.drop 4 r := by
            rw [← hc9]; exact (List.take_append_drop 4 r).symm
          rw [hr]; rfl
        · subst hc8
          exact okChunk_of_noTick (by unfold noTick; decide)
      · -- number
        split at h
        · rename_i q rest2 hnum
          injection h with h
          injection h with h1 h2
          obtain ⟨pre, hp, hnt⟩ := parseNumber_consumed hnum
          refine ⟨pre, ?_, okChunk_of_noTick hnt⟩
          rw [← h2, ← hp]
        · exact absurd h (by simp)

theorem parseArrBody_consumed : ∀ (fuel : Nat) (cs : List Char) (v : Json)
    (rest : List Char), parseArrBody fuel cs = some (v, rest) →
    ∃ pre, cs = pre ++ rest ∧ OkChunk pre
  | 0, cs, v, rest, h => by simp [parseArrBody] at h
  | fuel + 1, cs, v, rest, h => by
    unfold parseArrBody at h
    split at h
    · rename_i r
      injection h with h
      injection h with h1 h2
      refine ⟨[']'], ?_, okChunk_singleton (by decide)⟩
      rw [← h2]
      rfl
    · split at h
      · rename_i es r2 helems
        injection h with h
        injection h with h1 h2
        obtain ⟨pre, hp, hok⟩ := parseElems_consumed fuel cs es r2 helems
        exact ⟨pre, by rw [hp, h2], hok⟩
      · exact absurd h (by simp)

theorem parseElems_consumed : ∀ (fuel : Nat) (cs : List Char)
    (es : List Json) (rest : List Char),
    parseElems fuel cs = some (es, rest) →
    ∃ pre, cs = pre ++ rest ∧ OkChunk pre
  | 0, cs, es, rest, h => by simp [parseElems] at h
  | fuel + 1, cs, es, rest, h => by
    unfold parseElems at h
    split at h
    · exact absurd h (by simp)
    · rename_i v0 r0 hval
      obtain ⟨core1, hcv, hok1⟩ := parseVal_consumed fuel cs v0 r0 hval
      split at h
      · -- comma: another element follows
        rename_i r2 hskip2
        split at h
        · rename_i vs r3 helems
          injection h with h
          injection h with h1 h2
          obtain ⟨pre2, hp2, hok2⟩ := parseElems_consumed fuel r2 vs r3 helems
          refine ⟨cs.takeWhile isJsonWs ++ (core1 ++ (r0.takeWhile isJsonWs ++
            (',' :: pre2))), ?_, ?_⟩
          · rw [← h2]
            simp only [List.append_assoc, List.cons_append]
            rw [← hp2, ← hskip2, ← skipWs_decomp r0, ← hcv, ← skipWs_decomp cs]
          · exact okChunk_append (okChunk_ws cs) (okChunk_append hok1
              (okChunk_append (okChunk_ws r0)
                (okChunk_append (okChunk_singleton (by decide)) hok2)))
        · exact absurd h (by simp)
      · -- closing bracket
        rename_i r2 hskip2
        injection h with h
        injection h with h1 h2
        refine ⟨cs.takeWhile isJsonWs ++ (core1 ++ (r0.takeWhile isJsonWs ++
          [']'])), ?_, ?_⟩
        · rw [← h2]
          simp only [List.append_assoc, List.cons_append, List.nil_append]
          rw [← hskip2, ← skipWs_decomp r0, ← hcv, ← skipWs_decomp cs]
        · exact okChunk_append (okChunk_ws cs) (okChunk_append hok1
            (okChunk_append (okChunk_ws r0) (okChunk_singleton (by decide))))
      · exact absurd h (by simp)

theorem parseObjBody_consumed : ∀ (fuel : Nat) (cs : List Char) (v : Json)
    (rest : List Char), parseObjBody fuel cs = some (v, rest) →
    ∃ pre, cs = pre ++ rest ∧ OkChunk pre
  | 0, cs, v, rest, h => by simp [parseObjBody] at h
  | fuel + 1, cs, v, rest, h => by
    unfold parseObjBody at h
    split at h
    · rename_i r
      injection h with h
      injection h with h1 h2
      refine ⟨['}'], ?_, okChunk_singleton (by decide)⟩
      rw [← h2]
      rfl
    · split at h
      · rename_i ms r2 hmem
        injection h with h
        injection h with h1 h2
        obtain ⟨pre, hp, hok⟩ := parseMembers_consumed fuel cs ms r2 hmem
        exact ⟨pre, by rw [hp, h2], hok⟩
      · exact absurd h (by simp)

theorem parseMembers_consumed : ∀ (fuel : Nat) (cs : List Char)
    (ms : List (String × Json)) (rest : List Char),
    parseMembers fuel cs = some (ms, rest) →
    ∃ pre, cs = pre ++ rest ∧ OkChunk pre
  | 0, cs, ms, rest, h => by simp [parseMembers] at h
  | fuel + 1, cs, ms, rest, h => by
    unfold parseMembers at h
    split at h
    · rename_i r
      split at h
      · exact absurd h (by simp)
      · rename_i key r1 hstr
        obtain ⟨preS, hps, hprint, hlast⟩ := parseStrAux_consumed [] r r1 hstr
        split at h
        · rename_i r2 hskip1
          split at h
          · exact absurd h (by simp)
          · rename_i v0 r3 hval
            obtain ⟨coreV, hcv, hokV⟩ := parseVal_consumed fuel r2 v0 r3 hval
            split at h
            · -- comma: another member follows
              rename_i r4 hskip3
              split at h
              · rename_i ms0 r5 hmem
                injection h with h
                injection h with h1 h2
                obtain ⟨preM, hpm, hokM⟩ :=
                  parseMembers_consumed fuel (skipWs r4) ms0 r5 hmem
                refine ⟨('"' :: preS) ++ (r1.takeWhile isJsonWs ++ (':' ::
                  (r2.takeWhile isJsonWs ++ (coreV ++ (r3.takeWhile isJsonWs ++
                  (',' :: (r4.takeWhile isJsonWs ++ preM))))))), ?_, ?_⟩
                · rw [← h2]
                  simp only [List.append_assoc, List.cons_append]
                  rw [← hpm, ← skipWs_decomp r4, ← hskip3, ← skipWs_decomp r3,
                    ← hcv, ← skipWs_decomp r2, ← hskip1, ← skipWs_decomp r1,
                    ← hps]
                · exact okChunk_append (okChunk_strChunk hprint hlast)
                    (okChunk_append (okChunk_ws r1)
                      (okChunk_append (okChunk_singleton (by decide))
                        (okChunk_append (okChunk_ws r2)
                          (okChunk_append hokV
                            (okChunk_append (okChunk_ws r3)
                              (okChunk_append (okChunk_singleton (by decide))
                                (okChunk_append (okChunk_ws r4) hokM)))))))
              · exact absurd h (by simp)
            · -- closing brace
              rename_i r4 hskip3
              injection h with h
              injection h with h1 h2
              refine ⟨('"' :: preS) ++ (r1.takeWhile isJsonWs ++ (':' ::
                (r2.takeWhile isJsonWs ++ (coreV ++ (r3.takeWhile isJsonWs ++
                ['}']))))), ?_, ?_⟩
              · rw [← h2]
                simp only [List.append_assoc, List.cons_append, List.nil_append]
                rw [← hskip3, ← skipWs_decomp r3, ← hcv, ← skipWs_decomp r2,
                  ← hskip1, ← skipWs_decomp r1, ← hps]
              · exact okChunk_append (okChunk_strChunk hprint hlast)
                  (okChunk_append (okChunk_ws r1)
                    (okChunk_append (okChunk_singleton (by decide))
                      (okChunk_append (okChunk_ws r2)
                        (okChunk_append hokV
                          (okChunk_append (okChunk_ws r3)
                            (okChunk_singleton (by decide)))))))
            · exact absurd h (by simp)
        · exact absurd h (by simp)
    · exact absurd h (by simp)

end

/-- The object-body parser only builds objects. -/
theorem parseObjBody_obj (fuel : Nat) (cs : List Char) (v : Json)
    (r : List Char) (h : parseObjBody fuel cs = some (v, r)) :
    ∃ ms, v = .obj ms := by
  cases fuel with
  | zero => simp [parseObjBody] at h
  | succ fuel =>
    simp only [parseObjBody] at h
    split at h
    · injection h with h
      cases h
      exact ⟨[], rfl⟩
    · split at h
      · rename_i ms r2 _
        injection h with h
        cases h
        exact ⟨ms, rfl⟩
      · exact absurd h (by simp)

/-- A parse that produced an array started at a `[`. -/
theorem parseVal_arr_skip : ∀ (fuel : Nat) (cs : List Char) (xs : List Json)
    (rest : List Char), parseVal fuel cs = some (.arr xs, rest) →
    ∃ r, skipWs cs = '[' :: r := by
  intro fuel cs xs rest h
  cases fuel with
  | zero => simp [parseVal] at h
  | succ fuel =>
    unfold parseVal at h
    split at h
    · exact absurd h (by simp)
    · rename_i c r hskip
      split_ifs at h with hc1 hc2 hc3 hc4 hc5 hc6 hc7 hc8 hc9
      · obtain ⟨ms, hms⟩ := parseObjBody_obj fuel (skipWs r) _ rest h
        exact absurd hms (by simp)
      · exact ⟨r, by rw [hskip, hc2]⟩
      · split at h
        · injection h with h
          injection h with h1 h2
          exact absurd h1 (by simp)
        · exact absurd h (by simp)
      · injection h with h
        injection h with h1 h2
        exact absurd h1 (by simp)
      · injection h with h
        injection h with h1 h2
        exact absurd h1 (by simp)
      · injection h with h
        injection h with h1 h2
        exact absurd h1 (by simp)
      · split at h
        · injection h with h
          injection h with h1 h2
          exact absurd h1 (by simp)
        · exact absurd h (by simp)

/-- Decomposition of a text that decodes, as a whole, to a JSON array:
leading whitespace, then a good chunk starting with `[`, then trailing
whitespace. -/
theorem parseJsonWhole_arr_decomp (cs : List Char) (xs : List Json)
    (h : parseJsonWhole cs = some (.arr xs)) :
    ∃ core1 rest0, skipWs cs = ('[' :: core1) ++ rest0 ∧
      OkChunk ('[' :: core1) ∧ (∀ c ∈ rest0, isJsonWs c = true) := by
  unfold parseJsonWhole at h
  split at h
  · rename_i v0 rest0 hval
    split at h
    · rename_i hws
      injection h with h
      subst h
      obtain ⟨core, hcv, hok⟩ := parseVal_consumed _ cs _ rest0 hval
      obtain ⟨r, hr⟩ := parseVal_arr_skip _ cs xs rest0 hval
      have hrest : ∀ c ∈ rest0, isJsonWs c = true := by
        rw [List.isEmpty_iff] at hws
        exact (List.dropWhile_eq_nil_iff).mp hws
      cases core with
      | nil =>
        exfalso
        rw [hr] at hcv
        simp at hcv
        have : isJsonWs '[' = true := hrest '[' (by rw [← hcv]; simp)
        exact absurd this (by decide)
      | cons c0 core1 =>
        have hc0 : c0 = '[' := by
          rw [hr] at hcv
          simp at hcv
          exact hcv.1.symm
        subst hc0
        exact ⟨core1, rest0, hcv, hok, hrest⟩
    · exact absurd h (by simp)
  · exact absurd h (by simp)

/-! ### Behaviour of the two fence-stripping passes -/

/-- JSON whitespace is Python whitespace. -/
theorem pyWs_of_jsonWs {c : Char} (h : isJsonWs c = true) : isPyWs c = true := by
  simp only [isJsonWs, Bool.or_eq_true, beq_iff_eq] at h
  rcases h with ((h | h) | h) | h <;> simp [isPyWs, h]

theorem stripLead_id : ∀ (cs : List Char) (fuel : Nat) (b : Bool),
    (b = true → ∀ c ∈ cs.head?, c ≠ '`') →
    List.Chain' (fun a c => ¬(a = '\n' ∧ c = '`')) cs →
    stripLeadFences fuel b cs = cs := by
  intro cs
  induction cs with
  | nil => intro fuel b _ _; cases fuel <;> rfl
  | cons c rest ih =>
    intro fuel b hb hchain
    cases fuel with
    | zero => rfl
    | succ fuel =>
      unfold stripLeadFences
      rw [if_neg ?hcond]
      case hcond =>
        rintro ⟨hb', hpre⟩
        have hc : c ≠ '`' := hb hb' c (by simp)
        simp [fenceTicks, List.isPrefixOf] at hpre
        exact hc hpre.1.symm
      congr 1
      apply ih
      · intro hb' d hd
        have hcn : c = '\n' := by simpa using hb'
        have := (List.chain'_cons'.mp hchain).1 d hd
        subst hcn
        intro he
        exact this ⟨rfl, he⟩
      · exact (List.chain'_cons'.mp hchain).2

theorem stripTrail_id : ∀ (cs : List Char) (fuel : Nat),
    List.Chain' (fun a c => ¬(a = '`' ∧ c = '\n')) cs →
    (∀ c ∈ cs.getLast?, c ≠ '`') →
    stripTrailFences fuel cs = cs := by
  intro cs
  induction cs with
  | nil => intro fuel _ _; cases fuel <;> rfl
  | cons c rest ih =>
    intro fuel hchain hlast
    cases fuel with
    | zero => rfl
    | succ fuel =>
      unfold stripTrailFences
      rw [if_neg ?hcond]
      case hcond =>
        rintro ⟨hpre, hend⟩
        obtain ⟨t, ht⟩ := List.isPrefixOf_iff_prefix.mp hpre
        have hsuf : (c :: rest).dropWhile isPyWs <:+ c :: rest :=
          List.dropWhile_suffix _
        have hchain_r := hchain.suffix hsuf
        rw [← ht] at hchain_r
        rw [← ht] at hend
        simp only [fenceTicks, List.drop_succ_cons, List.drop_nil,
          List.cons_append, List.nil_append, List.drop_zero] at hend
        unfold lineEndAt at hend
        rcases Bool.or_eq_true _ _ |>.mp hend with hemp | hnl
        · have ht0 : t = [] := by simpa using hemp
          subst ht0
          obtain ⟨pref, hpref⟩ := hsuf
          rw [← ht] at hpref
          have : ∀ d ∈ (c :: rest).getLast?, d ≠ '`' := hlast
          have hg : (c :: rest).getLast? = some '`' := by
            rw [← hpref, List.getLast?_append]
            simp [fenceTicks]
          exact this '`' (by rw [hg]; simp) rfl
        · have ht1 : ∃ t', t = '\n' :: t' := by
            cases t with
            | nil => simp at hnl
            | cons a t' =>
              simp at hnl
              exact ⟨t', by rw [hnl]⟩
          obtain ⟨t', rfl⟩ := ht1
          simp only [fenceTicks, List.cons_append, List.nil_append] at hchain_r
          have h1 := (List.chain'_cons.mp hchain_r).2
          have h2 := (List.chain'_cons.mp h1).2
          have h3 := (List.chain'_cons.mp h2).1
          exact h3 ⟨rfl, rfl⟩
      congr 1
      apply ih
      · exact (List.chain'_cons'.mp hchain).2
      · intro d hd
        cases rest with
        | nil => simp at hd
        | cons y ys =>
          exact hlast d (by rw [List.getLast?_cons_cons]; exact hd)

theorem stripLead_until_tail : ∀ (y : List Char) (fuel : Nat) (b : Bool),
    y.length + 5 ≤ fuel →
    (b = true → ∀ c ∈ (y ++ ['\n']).head?, c ≠ '`') →
    List.Chain' (fun a c => ¬(a = '\n' ∧ c = '`')) (y ++ ['\n']) →
    stripLeadFences fuel b (y ++ '\n' :: fenceTicks) = y ++ ['\n'] := by
  intro y
  induction y with
  | nil =>
    intro fuel b hfuel hb hchain
    obtain ⟨f1, rfl⟩ : ∃ f1, fuel = f1 + 1 := ⟨fuel - 1, by omega⟩
    obtain ⟨f2, rfl⟩ : ∃ f2, f1 = f2 + 1 := ⟨f1 - 1, by omega⟩
    show stripLeadFences (f2 + 1 + 1) b ('\n' :: fenceTicks) = ['\n']
    unfold stripLeadFences
    rw [if_neg (by rintro ⟨-, hpre⟩; simp [fenceTicks, List.isPrefixOf] at hpre)]
    congr 1
    show stripLeadFences (f2 + 1) (decide ('\n' = '\n'))
      ('`' :: '`' :: '`' :: []) = []
    unfold stripLeadFences
    rw [if_pos ⟨by decide, by decide⟩]
    cases f2 <;> rfl
  | cons c y' ih =>
    intro fuel b hfuel hb hchain
    obtain ⟨f1, rfl⟩ : ∃ f1, fuel = f1 + 1 := ⟨fuel - 1, by omega⟩
    show stripLeadFences (f1 + 1) b (c :: (y' ++ '\n' :: fenceTicks)) =
      c :: (y' ++ ['\n'])
    unfold stripLeadFences
    rw [if_neg ?hc]
    case hc =>
      rintro ⟨hb', hpre⟩
      have hcne : c ≠ '`' := hb hb' c (by simp)
      simp [fenceTicks, List.isPrefixOf] at hpre
      exact hcne hpre.1.symm
    congr 1
    simp only [List.cons_append] at hchain
    apply ih f1 _ (by simp at hfuel ⊢; omega)
    · intro hb' d hd
      have hcn : c = '\n' := by simpa using hb'
      have := (List.chain'_cons'.mp hchain).1 d hd
      subst hcn
      intro he
      exact this ⟨rfl, he⟩
    · exact (List.chain'_cons'.mp hchain).2

/-- One scanner step across the tagged opening fence: the fence, the tag, and
the newline are consumed. -/
theorem stripLead_step_fence_json (fuel : Nat) (z : List Char) :
    stripLeadFences (fuel + 1) true
      ('`' :: '`' :: '`' :: 'j' :: 's' :: 'o' :: 'n' :: '\n' :: z) =
    stripLeadFences fuel
      (decide (((('\n' :: z).takeWhile isPyWs).getLast?) = some '\n'))
      (('\n' :: z).dropWhile isPyWs) := by
  rfl

/-- One scanner step across the untagged opening fence. -/
theorem stripLead_step_fence_plain (fuel : Nat) (z : List Char) :
    stripLeadFences (fuel + 1) true ('`' :: '`' :: '`' :: '\n' :: z) =
    stripLeadFences fuel
      (decide (((('\n' :: z).takeWhile isPyWs).getLast?) = some '\n'))
      (('\n' :: z).dropWhile isPyWs) := by
  rfl

/-- `dropWhile` jumps a satisfying prefix. -/
theorem dropWhile_append_all {p : Char → Bool} :
    ∀ {a : List Char} (b : List Char), (∀ c ∈ a, p c = true) →
    (a ++ b).dropWhile p = b.dropWhile p := by
  intro a
  induction a with
  | nil => intro b _; rfl
  | cons c cs ih =>
    intro b ha
    rw [List.cons_append, List.dropWhile_cons]
    rw [if_pos (ha c (List.mem_cons_self c cs))]
    exact ih b (fun d hd => ha d (List.mem_cons_of_mem c hd))

/-- `takeWhile` keeps a satisfying prefix. -/
theorem takeWhile_append_all {p : Char → Bool} :
    ∀ {a : List Char} (b : List Char), (∀ c ∈ a, p c = true) →
    (a ++ b).takeWhile p = a ++ b.takeWhile p := by
  intro a
  induction a with
  | nil => intro b _; rfl
  | cons c cs ih =>
    intro b ha
    rw [List.cons_append, List.takeWhile_cons]
    rw [if_pos (ha c (List.mem_cons_self c cs))]
    rw [ih b (fun d hd => ha d (List.mem_cons_of_mem c hd))]
    rfl

/-- Packaged `Chain'` of an append. -/
theorem chain'_append_of {R : Char → Char → Prop} {a b : List Char}
    (ha : List.Chain' R a) (hb : List.Chain' R b)
    (hab : ∀ x ∈ a.getLast?, ∀ y ∈ b.head?, R x y) :
    List.Chain' R (a ++ b) :=
  List.chain'_append.mpr ⟨ha, hb, hab⟩

/-- A response wrapped in a tagged markdown fence, as the tests build it:
three backticks, the `json` tag, a newline, the text, a newline, and a
closing fence. -/
def fenceWrapJson (cs : List Char) : List Char :=
  '`' :: '`' :: '`' :: 'j' :: 's' :: 'o' :: 'n' :: '\n' :: (cs ++ '\n' :: fenceTicks)

/-- A response wrapped in an untagged markdown fence. -/
def fenceWrapPlain (cs : List Char) : List Char :=
  '`' :: '`' :: '`' :: '\n' :: (cs ++ '\n' :: fenceTicks)

/-- After the first scanner step over an opening fence the rest of the input
is the decoded-array body followed by the closing fence, and the scanner
returns that body with its trailing newline. -/
theorem stripLead_after_step (cs core1 rest0 : List Char) (b : Bool) (fuel : Nat)
    (hsplit : skipWs cs = ('[' :: core1) ++ rest0)
    (hok : OkChunk ('[' :: core1))
    (hrest : ∀ c ∈ rest0, isJsonWs c = true)
    (hfuel : cs.length + 5 ≤ fuel) :
    stripLeadFences fuel b (('\n' :: (cs ++ '\n' :: fenceTicks)).dropWhile isPyWs) =
      ('[' :: (core1 ++ rest0)) ++ ['\n'] := by
  have hcs : cs = cs.takeWhile isJsonWs ++ ('[' :: (core1 ++ rest0)) := by
    conv_lhs => rw [skipWs_decomp cs]
    rw [hsplit]
    rfl
  have hwsPy : ∀ c ∈ cs.takeWhile isJsonWs, isPyWs c = true :=
    fun c hc => pyWs_of_jsonWs (List.mem_takeWhile_imp hc)
  have hdw : ('\n' :: (cs ++ '\n' :: fenceTicks)).dropWhile isPyWs =
      ('[' :: (core1 ++ rest0)) ++ '\n' :: fenceTicks := by
    rw [List.dropWhile_cons, if_pos (show isPyWs '\n' = true by decide)]
    conv_lhs => rw [hcs]
    rw [List.append_assoc]
    rw [dropWhile_append_all _ hwsPy]
    rw [List.cons_append, List.dropWhile_cons,
      if_neg (show ¬isPyWs '[' = true by decide)]
  rw [hdw]
  have hmAll : ∀ c ∈ rest0 ++ ['\n'], isJsonWs c = true := by
    intro c hc
    rcases List.mem_append.mp hc with h | h
    · exact hrest c h
    · simp at h; subst h; decide
  have hokYn : OkChunk (('[' :: core1) ++ (rest0 ++ ['\n'])) :=
    okChunk_append hok (okChunk_of_noTick (noTick_of_jsonWs hmAll))
  have hassoc : ('[' :: (core1 ++ rest0)) ++ ['\n'] =
      ('[' :: core1) ++ (rest0 ++ ['\n']) := by
    simp [List.cons_append, List.append_assoc]
  have hchain : List.Chain' (fun a c => ¬(a = '\n' ∧ c = '`'))
      (('[' :: (core1 ++ rest0)) ++ ['\n']) := by
    rw [hassoc]
    exact List.Chain'.imp (fun a b h => h.1) hokYn.1
  have h5 : ('[' :: (core1 ++ rest0)).length + 5 ≤ fuel := by
    have h0 : cs.length =
        (cs.takeWhile isJsonWs).length + ('[' :: (core1 ++ rest0)).length := by
      conv_lhs => rw [hcs]
      rw [List.length_append]
    omega
  have hb : b = true → ∀ c ∈ (('[' :: (core1 ++ rest0)) ++ ['\n']).head?,
      c ≠ '`' := by
    intro _ c hc
    simp at hc
    subst hc
    decide
  exact stripLead_until_tail ('[' :: (core1 ++ rest0)) fuel b h5 hb hchain

/-- The second pass does not touch the body with its trailing newline. -/
theorem stripTrail_y_newline (core1 rest0 : List Char) (fuel : Nat)
    (hok : OkChunk ('[' :: core1))
    (hrest : ∀ c ∈ rest0, isJsonWs c = true) :
    stripTrailFences fuel (('[' :: (core1 ++ rest0)) ++ ['\n']) =
      ('[' :: (core1 ++ rest0)) ++ ['\n'] := by
  have hmAll : ∀ c ∈ rest0 ++ ['\n'], isJsonWs c = true := by
    intro c hc
    rcases List.mem_append.mp hc with h | h
    · exact hrest c h
    · simp at h; subst h; decide
  have hokYn : OkChunk (('[' :: core1) ++ (rest0 ++ ['\n'])) :=
    okChunk_append hok (okChunk_of_noTick (noTick_of_jsonWs hmAll))
  have hassoc : ('[' :: (core1 ++ rest0)) ++ ['\n'] =
      ('[' :: core1) ++ (rest0 ++ ['\n']) := by
    simp [List.cons_append, List.append_assoc]
  apply stripTrail_id
  · rw [hassoc]
    exact List.Chain'.imp (fun a b h => h.2) hokYn.1
  · intro c hc
    rw [List.getLast?_concat] at hc
    simp at hc
    subst hc
    decide

/-- Stripping the body-with-newline and stripping the raw response give the
same text. -/
theorem pyStrip_y_newline (cs core1 rest0 : List Char)
    (hsplit : skipWs cs = ('[' :: core1) ++ rest0) :
    pyStrip (('[' :: (core1 ++ rest0)) ++ ['\n']) = pyStrip cs := by
  have hcs : cs = cs.takeWhile isJsonWs ++ ('[' :: (core1 ++ rest0)) := by
    conv_lhs => rw [skipWs_decomp cs]
    rw [hsplit]
    rfl
  have hwsPy : ∀ c ∈ cs.takeWhile isJsonWs, isPyWs c = true :=
    fun c hc => pyWs_of_jsonWs (List.mem_takeWhile_imp hc)
  unfold pyStrip
  have hL : (('[' :: (core1 ++ rest0)) ++ ['\n']).dropWhile isPyWs =
      ('[' :: (core1 ++ rest0)) ++ ['\n'] := by
    rw [List.cons_append, List.dropWhile_cons,
      if_neg (show ¬isPyWs '[' = true by decide)]
  have hR : cs.dropWhile isPyWs = '[' :: (core1 ++ rest0) := by
    conv_lhs => rw [hcs]
    rw [dropWhile_append_all _ hwsPy]
    rw [List.dropWhile_cons, if_neg (show ¬isPyWs '[' = true by decide)]
  rw [hL, hR]
  simp only [List.reverse_append, List.reverse_cons, List.reverse_nil,
    List.nil_append, List.singleton_append]
  rw [List.dropWhile_cons, if_pos (show isPyWs '\n' = true by decide)]

/-- Cleaning does not change a response that is entirely a JSON array text:
it has no backtick next to a newline, so both scanner passes are the
identity and only the `strip()` remains. -/
theorem cleanedOf_of_arr (cs : List Char) (xs : List Json)
    (hjson : parseJsonWhole cs = some (.arr xs)) :
    cleanedOf cs = pyStrip cs := by
  obtain ⟨core1, rest0, hsplit, hok, hrest⟩ := parseJsonWhole_arr_decomp cs xs hjson
  have hcs : cs = cs.takeWhile isJsonWs ++ (('[' :: core1) ++ rest0) := by
    conv_lhs => rw [skipWs_decomp cs]
    rw [hsplit]
  have hokAll : OkChunk cs := by
    rw [hcs]
    exact okChunk_append (okChunk_ws cs)
      (okChunk_append hok (okChunk_of_noTick (noTick_of_jsonWs hrest)))
  have h1 : stripFence1 cs = cs :=
    stripLead_id cs cs.length true (fun _ => hokAll.2.1)
      (List.Chain'.imp (fun a b h => h.1) hokAll.1)
  have h2 : stripFence2 cs = cs :=
    stripTrail_id cs cs.length (List.Chain'.imp (fun a b h => h.2) hokAll.1)
      hokAll.2.2
  unfold cleanedOf
  rw [h1, h2]

/-- Cleaning a fenced JSON array text, tagged or untagged, also yields the
stripped array text. -/
theorem cleanedOf_fence (cs : List Char) (xs : List Json)
    (hjson : parseJsonWhole cs = some (.arr xs)) :
    cleanedOf (fenceWrapJson cs) = pyStrip cs ∧
    cleanedOf (fenceWrapPlain cs) = pyStrip cs := by
  obtain ⟨core1, rest0, hsplit, hok, hrest⟩ := parseJsonWhole_arr_decomp cs xs hjson
  constructor
  · have hlen : (fenceWrapJson cs).length = cs.length + 11 + 1 := by
      simp +arith [fenceWrapJson, fenceTicks]
    have hstep : stripFence1 (fenceWrapJson cs) =
        ('[' :: (core1 ++ rest0)) ++ ['\n'] := by
      unfold stripFence1
      rw [hlen]
      exact (stripLead_step_fence_json _ _).trans
        (stripLead_after_step cs core1 rest0 _ _ hsplit hok hrest (by omega))
    unfold cleanedOf
    rw [hstep,
      show stripFence2 (('[' :: (core1 ++ rest0)) ++ ['\n']) =
          ('[' :: (core1 ++ rest0)) ++ ['\n'] from
        stripTrail_y_newline core1 rest0 _ hok hrest,
      pyStrip_y_newline cs core1 rest0 hsplit]
  · have hlen : (fenceWrapPlain cs).length = cs.length + 7 + 1 := by
      simp +arith [fenceWrapPlain, fenceTicks]
    have hstep : stripFence1 (fenceWrapPlain cs) =
        ('[' :: (core1 ++ rest0)) ++ ['\n'] := by
      unfold stripFence1
      rw [hlen]
      exact (stripLead_step_fence_plain _ _).trans
        (stripLead_after_step cs core1 rest0 _ _ hsplit hok hrest (by omega))
    unfold cleanedOf
    rw [hstep,
      show stripFence2 (('[' :: (core1 ++ rest0)) ++ ['\n']) =
          ('[' :: (core1 ++ rest0)) ++ ['\n'] from
        stripTrail_y_newline core1 rest0 _ hok hrest,
      pyStrip_y_newline cs core1 rest0 hsplit]

/-- Claim C8: a response text that is a JSON array and parses to an entry
list gives exactly the same entry list when wrapped in a markdown fenced
code block, with or without the `json` language tag. -/
theorem fenced_block_same_result (cs : List Char) (xs : List Json)
    (es : List FMEAEntry)
    (hjson : parseJsonWhole cs = some (.arr xs))
    (hpipe : parsePipeline cs = .ok es) :
    parsePipeline (fenceWrapJson cs) = .ok es ∧
    parsePipeline (fenceWrapPlain cs) = .ok es := by
  obtain ⟨hj, hp⟩ := cleanedOf_fence cs xs hjson
  have hc := cleanedOf_of_arr cs xs hjson
  unfold parsePipeline at hpipe ⊢
  rw [hj, hp, ← hc]
  exact ⟨hpipe, hpipe⟩

/-- A concrete one-element JSON array response text. -/
def fencedSampleText : List Char :=
  ("[\x7b\"component\": \"C\", \"function\": \"F\", \"failure_mode\": \"M\", " ++
   "\"failure_effect\": \"E\", \"failure_cause\": \"K\", \"severity\": 9, " ++
   "\"occurrence\": 3, \"detection\": 5, " ++
   "\"recommended_action\": \"A\"\x7d]").toList

/-- The decoded value of `fencedSampleText`. -/
def fencedSampleJson : Json := .obj [("component", .str "C"),
  ("function", .str "F"), ("failure_mode", .str "M"),
  ("failure_effect", .str "E"), ("failure_cause", .str "K"),
  ("severity", .num 9), ("occurrence", .num 3), ("detection", .num 5),
  ("recommended_action", .str "A")]

/-- The entry the pipeline builds from `fencedSampleText`. -/
def fencedSampleEntry : FMEAEntry := ⟨"DFMEA-001", "C", "F", "M", "E", "K",
  9, 3, 5, 135, "A", .medium⟩

set_option maxRecDepth 40000 in
/-- Claim C8 witness: the concrete response parses to one entry, and wrapped
in either fence the pipeline returns that same entry list. -/
theorem fenced_block_same_result_witness :
    parsePipeline (fenceWrapJson fencedSampleText) = .ok [fencedSampleEntry] ∧
    parsePipeline (fenceWrapPlain fencedSampleText) = .ok [fencedSampleEntry] :=
  fenced_block_same_result fencedSampleText [fencedSampleJson]
    [fencedSampleEntry] (by rfl) (by rfl)
